import Mathlib

/-!
Verification development for the AirbnbAPI reservation pipeline
(`src/AirbnbAPI.py`).  The Python module is shallowly embedded: Python
values are modelled by the inductive `PyVal` (dictionaries are encoded as
`vDictCons`/`vDictNil` chains, floats as exact rationals), fallible Python
code is modelled in `Except PyErr`, and each method of the `AirbnbAPI`
class becomes a Lean definition carrying the same name.  Logging, the
HTTP fetch loop, JSON serialisation and the `generated_at` timestamp are
outside the embedded core (they are I/O wrappers with no logic); every
data-shaping decision of the source is reproduced, including evaluation
order of fallible steps.
-/

/-- Python runtime values, as used by this module.  Dictionaries are
encoded inline (`vDictCons key val rest`) so that equality and all
operations stay structurally recursive and decidable.  Python floats are
modelled as exact rationals.  Python's numeric cross-type equality
(`1 == 1.0`) is not modelled: the records manipulated here use string
keys and string/int/float leaves, where structural equality agrees with
Python `==`. -/
inductive PyVal where
  | vNone
  | vBool (b : Bool)
  | vInt (n : Int)
  | vFloat (q : Rat)
  | vStr (s : String)
  | vDictNil
  | vDictCons (key : String) (val : PyVal) (rest : PyVal)
deriving DecidableEq, Repr

/-- The Python exception kinds this module can raise. -/
inductive PyErr where
  | attrError
  | typeError
  | valueError
  | zeroDivError
  | keyError (k : PyVal)
deriving DecidableEq, Repr

namespace PyVal

/-- Build a dictionary value from an association list (keys in insertion
order, as a Python dict literal). -/
def ofDict : List (String × PyVal) → PyVal
  | [] => vDictNil
  | (k, v) :: t => vDictCons k v (ofDict t)

/-- Whether the value is a Python `dict`. -/
def isDictB : PyVal → Bool
  | vDictNil => true
  | vDictCons _ _ _ => true
  | _ => false

/-- Raw association lookup on a dict encoding (first binding wins). -/
def pyLookup : PyVal → String → Option PyVal
  | vDictCons k v r, key => if k = key then some v else pyLookup r key
  | _, _ => none

/-- `d.get(key, default)` on a value already known to be a dict (total;
returns the default on non-dicts, which callers rule out). -/
def pyLookupD (m : PyVal) (key : String) (dflt : PyVal) : PyVal :=
  (pyLookup m key).getD dflt

/-- Python truthiness of the modelled values. -/
def truthyB : PyVal → Bool
  | vNone => false
  | vBool b => b
  | vInt n => n ≠ 0
  | vFloat q => q ≠ 0
  | vStr s => s ≠ ""
  | vDictNil => false
  | vDictCons _ _ _ => true

/-- Numeric view: Python `int`, `float` and `bool` all act as numbers in
arithmetic and comparisons. -/
def numVal? : PyVal → Option Rat
  | vInt n => some (n : Rat)
  | vFloat q => some q
  | vBool b => some (if b then 1 else 0)
  | _ => none

end PyVal

open PyVal

/-- `m.get(key, default)`: raises `AttributeError` when `m` is not a
dict, as in Python. -/
def pyGet? (m : PyVal) (key : String) (dflt : PyVal) : Except PyErr PyVal :=
  if m.isDictB then Except.ok (m.pyLookupD key dflt) else Except.error PyErr.attrError

/-- `m[key]`: `KeyError` on a dict missing the key, `TypeError` when `m`
is not subscriptable by a string key. -/
def pySub (m : PyVal) (key : String) : Except PyErr PyVal :=
  if m.isDictB then
    match m.pyLookup key with
    | some v => Except.ok v
    | none => Except.error (PyErr.keyError (vStr key))
  else Except.error PyErr.typeError

/-! ### String utilities: `str.replace` and `float()` -/

/-- Python `str.replace` on character lists: scan left to right, replace
each non-overlapping occurrence of `pat` (non-empty patterns only, the
only ones this module uses).  Structural recursion on a fuel bounded by
the list length (each step consumes at least one character, so the fuel
never runs out when started at the length). -/
def replaceFuel (pat rep : List Char) : Nat → List Char → List Char
  | _, [] => []
  | 0, l => l
  | fuel + 1, c :: cs =>
    if pat ≠ [] ∧ pat.isPrefixOf (c :: cs) then
      rep ++ replaceFuel pat rep fuel (List.drop pat.length (c :: cs))
    else
      c :: replaceFuel pat rep fuel cs

def replaceL (pat rep l : List Char) : List Char :=
  replaceFuel pat rep l.length l

/-- Python `s.replace(pat, rep)`. -/
def pyReplace (s pat rep : String) : String :=
  String.mk (replaceL pat.data rep.data s.data)

def isDigitB (c : Char) : Bool := '0' ≤ c && c ≤ '9'

def digitVal (c : Char) : Nat := c.toNat - 48

/-- Value of a digit string read left to right (the empty list reads as
0, matching `float("" + "." + frac)` semantics for the integer part). -/
def digitsVal (cs : List Char) : Nat :=
  cs.foldl (fun a c => 10 * a + digitVal c) 0

def isSpaceB (c : Char) : Bool :=
  c = ' ' || c = Char.ofNat 9 || c = Char.ofNat 10 || c = Char.ofNat 11 ||
  c = Char.ofNat 12 || c = Char.ofNat 13

/-- Strip surrounding whitespace (Python `float()` ignores it). -/
def stripWs (l : List Char) : List Char :=
  ((l.dropWhile isSpaceB).reverse.dropWhile isSpaceB).reverse

/-- Exponent suffix of a Python float literal: optional sign then at
least one digit, consuming the whole remainder. -/
def parseExp? (cs : List Char) : Option Int :=
  let (sgn, ds) : Int × List Char :=
    match cs with
    | '-' :: t => (-1, t)
    | '+' :: t => (1, t)
    | _ => (1, cs)
  if ds ≠ [] ∧ ds.all isDigitB then some (sgn * (digitsVal ds : Int)) else none

/-- Core of Python `float(string)` on the decimal grammar: optional
sign, digits with an optional fractional part, optional exponent.
Digit-group underscores, `inf`/`nan` literals and non-ASCII digits are
not modelled (nothing in this module's data can produce them without
already being malformed for the currency pattern). -/
def parseFloatCore (cs0 : List Char) : Option Rat :=
  let sgn : Rat := if cs0.head? = some '-' then -1 else 1
  let cs : List Char :=
    if cs0.head? = some '-' ∨ cs0.head? = some '+' then cs0.tail else cs0
  let ip := cs.takeWhile isDigitB
  let r1 := cs.dropWhile isDigitB
  if r1 = [] then
    if ip = [] then none else some (sgn * (digitsVal ip : Rat))
  else if r1.head? = some '.' then
    let r2 := r1.tail
    let fp := r2.takeWhile isDigitB
    let r3 := r2.dropWhile isDigitB
    if ip = [] ∧ fp = [] then none
    else
      let base : Rat := sgn * ((digitsVal ip : Rat) + (digitsVal fp : Rat) / (10 : Rat) ^ fp.length)
      if r3 = [] then some base
      else if r3.head? = some 'e' ∨ r3.head? = some 'E' then
        (parseExp? r3.tail).map (fun k => base * (10 : Rat) ^ k)
      else none
  else if r1.head? = some 'e' ∨ r1.head? = some 'E' then
    if ip = [] then none
    else (parseExp? r1.tail).map (fun k => sgn * (digitsVal ip : Rat) * (10 : Rat) ^ k)
  else none

/-- Python `float(s)` (decimal grammar; see `parseFloatCore`). -/
def parseFloat? (s : String) : Option Rat :=
  parseFloatCore (stripWs s.data)

/-! ### `format_earnings` (lines 45-59) -/

/-- `format_earnings`: strip `R$`, drop thousands dots, turn the decimal
comma into a dot and parse as float; any `ValueError`/`AttributeError`
(malformed string, non-string value) is caught and yields `0.0`. -/
def format_earnings (v : PyVal) : Rat :=
  match v with
  | vStr s =>
    match parseFloat? (pyReplace (pyReplace (pyReplace s "R$" "") "." "") "," ".") with
    | some q => q
    | none => 0
  | _ => 0

/-! ### `process_reservation` (lines 61-98) -/

/-- Body of the `try` in `process_reservation`: every field lookup uses
`.get` with a default; `AttributeError` escapes when the raw record (or
a present `guest_user`/`guest_details` value) is not a dict.  Field
evaluation order follows the Python dict literal. -/
def process_reservationE (raw : PyVal) : Except PyErr PyVal := do
  let status ← pyGet? raw "user_facing_status_localized" (vStr "")
  let code ← pyGet? raw "confirmation_code" (vStr "")
  let pname ← pyGet? raw "listing_name" (vStr "")
  let booked ← pyGet? raw "booked_date" (vStr "")
  let cin ← pyGet? raw "start_date" (vStr "")
  let cout ← pyGet? raw "end_date" (vStr "")
  let nights ← pyGet? raw "nights" (vStr "")
  let earnRaw ← pyGet? raw "earnings" (vStr "0.0")
  let gu ← pyGet? raw "guest_user" vDictNil
  let gname ← pyGet? gu "full_name" (vStr "")
  let gphone ← pyGet? gu "phone" (vStr "")
  let gloc ← pyGet? gu "location" (vStr "")
  let gd ← pyGet? raw "guest_details" vDictNil
  let adults ← pyGet? gd "number_of_adults" (vInt 0)
  let children ← pyGet? gd "number_of_children" (vInt 0)
  let infants ← pyGet? gd "number_of_infants" (vInt 0)
  let pets ← pyGet? gd "number_of_pets" (vInt 0)
  pure (PyVal.ofDict
    [("status", status),
     ("confirmation_code", code),
     ("property_name", pname),
     ("booking_date", booked),
     ("check_in", cin),
     ("check_out", cout),
     ("nights", nights),
     ("earnings", vFloat (format_earnings earnRaw)),
     ("guest", PyVal.ofDict
       [("name", gname),
        ("phone", gphone),
        ("location", gloc),
        ("details", PyVal.ofDict
          [("adults", adults),
           ("children", children),
           ("infants", infants),
           ("pets", pets)])])])

/-- `process_reservation`: any structural exception is caught and an
empty placeholder dict `{}` is returned instead. -/
def process_reservation (raw : PyVal) : PyVal :=
  match process_reservationE raw with
  | Except.ok d => d
  | Except.error _ => vDictNil

/-- Exactly when the `try` body of `process_reservation` completes:
the raw record is a dict and the `guest_user`/`guest_details` values
(defaulting to `{}`) are dicts. -/
def normOkB (raw : PyVal) : Bool :=
  raw.isDictB && (raw.pyLookupD "guest_user" vDictNil).isDictB &&
    (raw.pyLookupD "guest_details" vDictNil).isDictB

/-! ### Dates: `datetime.strptime(s, "%Y-%m-%d")` -/

structure Date where
  year : Nat
  month : Nat
  day : Nat
deriving DecidableEq, Repr

def leapB (y : Nat) : Bool := (y % 4 = 0 && y % 100 ≠ 0) || y % 400 = 0

def daysInMonth (y m : Nat) : Nat :=
  if m = 2 then (if leapB y then 29 else 28)
  else if m = 4 || m = 6 || m = 9 || m = 11 then 30
  else 31

/-- Day part at the end of the string, following CPython's `%d` pattern
`3[01]|[12]\d|0[1-9]|[1-9]` with the full string consumed. -/
def parseDayEnd (cs : List Char) : Option Nat :=
  match cs with
  | [d1, d2] =>
    if d1 = '3' && (d2 = '0' || d2 = '1') then some (30 + digitVal d2)
    else if (d1 = '1' || d1 = '2') && isDigitB d2 then some (10 * digitVal d1 + digitVal d2)
    else if d1 = '0' && ('1' ≤ d2 && d2 ≤ '9') then some (digitVal d2)
    else none
  | [d1] => if '1' ≤ d1 && d1 ≤ '9' then some (digitVal d1) else none
  | _ => none

/-- Month-dash-day part, following `%m` = `1[0-2]|0[1-9]|[1-9]`. -/
def parseMD (cs : List Char) : Option (Nat × Nat) :=
  match cs with
  | m1 :: '-' :: rest =>
    if '1' ≤ m1 && m1 ≤ '9' then (parseDayEnd rest).map (fun d => (digitVal m1, d))
    else none
  | m1 :: m2 :: '-' :: rest =>
    if (m1 = '0' && ('1' ≤ m2 && m2 ≤ '9')) || (m1 = '1' && ('0' ≤ m2 && m2 ≤ '2')) then
      (parseDayEnd rest).map (fun d => (10 * digitVal m1 + digitVal m2, d))
    else none
  | _ => none

/-- `datetime.strptime(s, "%Y-%m-%d")` restricted to the date it
yields: four-digit year, `%m`/`%d` fields as in CPython's `_strptime`
regexes, then `datetime`'s own range check on the day (month lengths,
leap years) and `MINYEAR = 1`. -/
def parseDate? (s : String) : Option Date :=
  match s.data with
  | y1 :: y2 :: y3 :: y4 :: '-' :: rest =>
    if isDigitB y1 && isDigitB y2 && isDigitB y3 && isDigitB y4 then
      match parseMD rest with
      | some (m, d) =>
        let y := 1000 * digitVal y1 + 100 * digitVal y2 + 10 * digitVal y3 + digitVal y4
        if 1 ≤ y ∧ d ≤ daysInMonth y m then some ⟨y, m, d⟩ else none
      | none => none
    else none
  | _ => none

/-- Comparison of the parsed datetimes (all at the same fixed time of
day, so date order decides). -/
def dateLe (a b : Date) : Bool :=
  decide (a.year < b.year ∨ (a.year = b.year ∧
    (a.month < b.month ∨ (a.month = b.month ∧ a.day ≤ b.day))))

/-! ### Stable sorting

Python's `list.sort`/`sorted` are stable.  A stable sort is modelled by
insertion sort: for a (locally) total preorder both produce the same
output, namely the unique stable ordering. -/

/-- Insert `a` in front of the first element `b` with `le a b` (so a new
element goes before elements it ties with that came later, and after
earlier ones: stability). -/
def ordInsert (le : α → α → Bool) (a : α) : List α → List α
  | [] => [a]
  | b :: t => if le a b then a :: b :: t else b :: ordInsert le a t

/-- Stable (insertion) sort by `le`. -/
def stableSort (le : α → α → Bool) : List α → List α
  | [] => []
  | a :: t => ordInsert le a (stableSort le t)

/-! ### Except-monadic list traversals (Python comprehensions / loops
whose bodies may raise) -/

/-- A list comprehension `[x for x in l if p x]` whose predicate may
raise: the first exception aborts the whole comprehension. -/
def exFilter (p : α → Except ε Bool) : List α → Except ε (List α)
  | [] => Except.ok []
  | a :: t =>
    match p a with
    | Except.error e => Except.error e
    | Except.ok b =>
      match exFilter p t with
      | Except.error e => Except.error e
      | Except.ok r => Except.ok (if b then a :: r else r)

/-- A `for` loop folding an accumulator with a body that may raise. -/
def exFoldl (f : β → α → Except ε β) (b : β) : List α → Except ε β
  | [] => Except.ok b
  | a :: t =>
    match f b a with
    | Except.error e => Except.error e
    | Except.ok b' => exFoldl f b' t

/-- `mapM` over `Except` (a comprehension building a list, first
exception aborts). -/
def exMap (f : α → Except ε β) : List α → Except ε (List β)
  | [] => Except.ok []
  | a :: t =>
    match f a with
    | Except.error e => Except.error e
    | Except.ok b =>
      match exMap f t with
      | Except.error e => Except.error e
      | Except.ok r => Except.ok (b :: r)

/-! ### `calculate_summary` (lines 100-182) -/

/-- The two cancellation status labels (line 114). -/
def cancelLabels : List PyVal :=
  [vStr "Cancelado pelo hóspede", vStr "Cancelada pelo Airbnb"]

/-- The cancellation test applied to a record whose `status` was read
with `res.get("status")` (default `None`). -/
def isCancelV (st : PyVal) : Bool := st ∈ cancelLabels

/-- Lines 111-117: the valid subset.  Reading `status` from a non-dict
record raises `AttributeError`. -/
def validM (reservations : List PyVal) (include_canceled : Bool) :
    Except PyErr (List PyVal) :=
  if include_canceled then Except.ok reservations
  else
    exFilter (fun r => do
      let st ← pyGet? r "status" vNone
      pure (! isCancelV st)) reservations

/-- `status_count[status] = status_count.get(status, 0) + 1` on an
association list in key-discovery order. -/
def bump (acc : List (PyVal × Nat)) (k : PyVal) : List (PyVal × Nat) :=
  match acc with
  | [] => [(k, 1)]
  | (k', n) :: t => if k' = k then (k', n + 1) :: t else (k', n) :: bump t k

/-- Lines 119-122: the status histogram over the whole input batch. -/
def histM (reservations : List PyVal) : Except PyErr (List (PyVal × Nat)) :=
  exFoldl (fun acc r => do
    let st ← pyGet? r "status" (vStr "unknown")
    pure (bump acc st)) [] reservations

/-- `sum(res.get(field, 0) for res in valid)`: `TypeError` when a value
is not a number (the running total starts from the int `0`).  The
int/float distinction of the Python total is dropped: both are modelled
as `Rat`. -/
def sumFieldM (valid : List PyVal) (field : String) : Except PyErr Rat :=
  exFoldl (fun acc r => do
    let v ← pyGet? r field (vInt 0)
    match v.numVal? with
    | some q => pure (acc + q)
    | none => Except.error PyErr.typeError) 0 valid

/-- One of the four guest sums (lines 143-146):
`sum(res["guest"]["details"].get(field, 0) for res in valid)`.
The two subscripts can raise `KeyError`/`TypeError`. -/
def guestSumM (valid : List PyVal) (field : String) : Except PyErr Rat :=
  exFoldl (fun acc r => do
    let g ← pySub r "guest"
    let d ← pySub g "details"
    let v ← pyGet? d field (vInt 0)
    match v.numVal? with
    | some q => pure (acc + q)
    | none => Except.error PyErr.typeError) 0 valid

structure GuestSums where
  adults : Rat
  children : Rat
  infants : Rat
  pets : Rat
deriving DecidableEq, Repr

def guestSumsM (valid : List PyVal) : Except PyErr GuestSums := do
  let a ← guestSumM valid "adults"
  let c ← guestSumM valid "children"
  let i ← guestSumM valid "infants"
  let p ← guestSumM valid "pets"
  pure ⟨a, c, i, p⟩

/-- Lines 149-152, first dict: per-property reservation count, keys in
discovery order. -/
def propCountM (valid : List PyVal) : Except PyErr (List (PyVal × Nat)) :=
  exFoldl (fun acc r => do
    let name ← pyGet? r "property_name" (vStr "Unknown")
    pure (bump acc name)) [] valid

/-- `property_earnings[name] = property_earnings.get(name, 0) + earnings`
on an association list (numeric accumulation; a non-numeric earnings
value raises `TypeError` as `0 + value` would). -/
def bumpAdd (acc : List (PyVal × Rat)) (k : PyVal) (q : Rat) : List (PyVal × Rat) :=
  match acc with
  | [] => [(k, q)]
  | (k', v) :: t => if k' = k then (k', v + q) :: t else (k', v) :: bumpAdd t k q

/-- Lines 149-152, second dict: per-property earnings. -/
def propEarnM (valid : List PyVal) : Except PyErr (List (PyVal × Rat)) :=
  exFoldl (fun acc r => do
    let name ← pyGet? r "property_name" (vStr "Unknown")
    let e ← pyGet? r "earnings" (vInt 0)
    match e.numVal? with
    | some q => pure (bumpAdd acc name q)
    | none => Except.error PyErr.typeError) [] valid

/-- The numeric value of Python's `f"{x:.2f}"` two-decimal formatting (a
nearest multiple of 1/100; the proofs only use that it is within 1/200
of `x`, which covers both the half-even tie-break of CPython and the
half-up `round` used here). -/
def round2 (q : Rat) : Rat := ((round (q * 100) : Int) : Rat) / 100

/-- Association lookup used for `property_count[k]`. -/
def lookupN (acc : List (PyVal × Nat)) (k : PyVal) : Option Nat :=
  match acc with
  | [] => none
  | (k', n) :: t => if k' = k then some n else lookupN t k

/-- `sorted(items, key=lambda item: item[1], reverse=True)` for int
values (always comparable, never raises): stable descending. -/
def sortDescNat (l : List (PyVal × Nat)) : List (PyVal × Nat) :=
  stableSort (fun a b => decide (b.2 ≤ a.2)) l

/-- Same for float values. -/
def sortDescRat (l : List (PyVal × Rat)) : List (PyVal × Rat) :=
  stableSort (fun a b => decide (b.2 ≤ a.2)) l

/-- Lines 156-162: per-property count entries `(count, percentage)`,
percentage two-decimal formatted.  `reservations_sum ≥ 1` on this path,
so the division cannot raise. -/
def mkCountEntries (pc : List (PyVal × Nat)) (n : Nat) : List (PyVal × Nat × Rat) :=
  pc.map (fun kv => (kv.1, kv.2, round2 ((kv.2 : Rat) / (n : Rat) * 100)))

/-- Lines 164-171: per-property earnings entries
`(earnings, percentage, average_per_reservation)` (all two-decimal
formatted values).  Dividing by a zero `earnings_sum` raises
`ZeroDivisionError`; `property_count[k]` is a subscript. -/
def mkEarnEntriesM (pe : List (PyVal × Rat)) (T : Rat) (pc : List (PyVal × Nat)) :
    Except PyErr (List (PyVal × Rat × Rat × Rat)) :=
  exMap (fun kv => do
    let disp := round2 kv.2
    if T = 0 then Except.error PyErr.zeroDivError
    else
      match lookupN pc kv.1 with
      | none => Except.error (PyErr.keyError kv.1)
      | some c =>
        let pct := round2 (kv.2 / T * 100)
        let avg := if 0 < c then round2 (kv.2 / (c : Rat)) else 0
        pure (kv.1, disp, pct, avg)) pe

/-- The summary report.  `generated_at` (a wall-clock timestamp) is not
modelled; display strings (`"R$..."`) are modelled by their numeric
values, with the zero-report's `"R$0,00"` as `0`; the zero-report's
empty `guest_details` dict is `none`. -/
structure Summary where
  reservations_sum : Nat
  earnings_sum : Rat
  nights_sum : Rat
  status_count : List (PyVal × Nat)
  guest_details : Option GuestSums
  reservations_per_property : List (PyVal × Nat × Rat)
  earnings_per_property : List (PyVal × Rat × Rat × Rat)
deriving DecidableEq, Repr

/-- The zero-valued report of lines 124-135. -/
def zeroSummary (sc : List (PyVal × Nat)) : Summary :=
  { reservations_sum := 0
    earnings_sum := 0
    nights_sum := 0
    status_count := sortDescNat sc
    guest_details := none
    reservations_per_property := []
    earnings_per_property := [] }

/-- `calculate_summary` (lines 100-182), following the source's
evaluation order: valid subset, histogram, empty-subset early return,
earnings and nights sums, guest sums, per-property folds, then the two
sorted per-property maps with their percentage/average divisions. -/
def calculate_summary (reservations : List PyVal) (include_canceled : Bool) :
    Except PyErr Summary := do
  let valid ← validM reservations include_canceled
  let sc ← histM reservations
  if valid = [] then
    pure (zeroSummary sc)
  else do
    let earnings_sum ← sumFieldM valid "earnings"
    let nights_sum ← sumFieldM valid "nights"
    let gd ← guestSumsM valid
    let pc ← propCountM valid
    let pe ← propEarnM valid
    let reservations_sum := valid.length
    let countEntries := mkCountEntries (sortDescNat pc) reservations_sum
    let earnEntries ← mkEarnEntriesM (sortDescRat pe) earnings_sum pc
    pure
      { reservations_sum := reservations_sum
        earnings_sum := earnings_sum
        nights_sum := nights_sum
        status_count := sortDescNat sc
        guest_details := some gd
        reservations_per_property := countEntries
        earnings_per_property := earnEntries }

/-! ### `get_reservations_as_json` (lines 221-294)

The fetch and `json.dumps` wrappers are outside the core: the embedding
takes the already-fetched record list and returns the structured result
(`summary` + records, or a `{"message": ...}` object).  An exception
escaping the function (as `calculate_summary`'s can, line 288, or the
status filter's, line 276) is the `Except.error` case. -/

inductive ApiResult where
  | message (s : String)
  | payload (summary : Summary) (reservations : List PyVal)
deriving DecidableEq, Repr

/-- A single-quote character, for faithful message texts. -/
def squote : String := (Char.ofNat 39).toString

def msgNoRes : String := "Nenhuma reserva encontrada."

def badFieldMsg (f : String) : String :=
  "Campo de filtro de data inválido: " ++ f ++ "."

def msgDateErr : String := "Erro ao filtrar por período de datas."

def sortErrMsg (f : String) : String :=
  "Erro ao ordenar pelo campo " ++ squote ++ f ++ squote ++ "."

def validDateFields : List String := ["check_in", "check_out", "booking_date"]

/-- Truthiness of an optional string parameter (`if start_date or ...`,
`if sort_by:`): present and non-empty. -/
def strTruthy : Option String → Bool
  | some s => s ≠ ""
  | none => false

/-- `datetime.strptime(x, "%Y-%m-%d") if x else None` for a bound
(lines 259-260): an unparseable non-empty bound raises `ValueError`. -/
def parseBound (b : Option String) : Except PyErr (Option Date) :=
  match b with
  | some s =>
    if s ≠ "" then
      match parseDate? s with
      | some d => Except.ok (some d)
      | none => Except.error PyErr.valueError
    else Except.ok none
  | none => Except.ok none

/-- The `[start, end]` test, each bound dropped when absent. -/
def inBoundsB (sd ed : Option Date) (d : Date) : Bool :=
  (match sd with | some s => dateLe s d | none => true) &&
  (match ed with | some e => dateLe d e | none => true)

/-- `is_within_date_range` (lines 262-268): a falsy field value excludes
the record; a truthy value is parsed by `strptime`, raising on non-date
strings (`ValueError`) and non-strings (`TypeError`). -/
def dateRecTest (f : String) (sd ed : Option Date) (r : PyVal) : Except PyErr Bool := do
  let v ← pyGet? r f (vStr "")
  if v.truthyB = false then pure false
  else
    match v with
    | vStr s =>
      match parseDate? s with
      | some d => pure (inBoundsB sd ed d)
      | none => Except.error PyErr.valueError
    | _ => Except.error PyErr.typeError

/-- The whole `try` block of lines 258-270: parse both bounds, then
filter.  Any exception here is caught by the `except` of line 271. -/
def dateStageM (f : String) (sdS edS : Option String) (rs : List PyVal) :
    Except PyErr (List PyVal) := do
  let sd ← parseBound sdS
  let ed ← parseBound edS
  exFilter (dateRecTest f sd ed) rs

/-- Line 275-276: the status filter comprehension.  Its exceptions are
NOT caught.  `if status_filter:` skips `None` and the empty list. -/
def statusStage (status_filter : Option (List PyVal)) (rs : List PyVal) :
    Except PyErr (List PyVal) :=
  match status_filter with
  | some l =>
    if l ≠ [] then
      exFilter (fun r => do
        let st ← pyGet? r "status" vNone
        pure (st ∈ l : Bool)) rs
    else Except.ok rs
  | none => Except.ok rs

/-- Sort-key comparability (`<` between two key values): numbers with
numbers, strings with strings.  CPython's sort raises `TypeError`
exactly when it performs an unsupported comparison; with these
categories, any list of ≥ 2 keys containing an unsupported pair must
perform one (runs/insertions compare adjacent elements, and cross-
category order can never be derived transitively), while a 0/1-element
sort performs none. -/
def pyCmpOkB (a b : PyVal) : Bool :=
  (a.numVal?.isSome && b.numVal?.isSome) ||
  (match a, b with | vStr _, vStr _ => true | _, _ => false)

/-- Strict lexicographic order on character lists by code point
(Python's string `<`). -/
def lexLtB : List Char → List Char → Bool
  | [], [] => false
  | [], _ :: _ => true
  | _ :: _, [] => false
  | a :: as, b :: bs =>
    if a.toNat < b.toNat then true
    else if b.toNat < a.toNat then false
    else lexLtB as bs

/-- Python `s <= t` on strings: `not (t < s)`. -/
def strLeB (s t : String) : Bool := ! lexLtB t.data s.data

/-- Key order where comparable (`a ≤ b`: numeric order, or string
lexicographic order by code point, as in Python). -/
def pyLeB (a b : PyVal) : Bool :=
  match a.numVal?, b.numVal? with
  | some x, some y => decide (x ≤ y)
  | _, _ =>
    match a, b with
    | vStr s, vStr t => strLeB s t
    | _, _ => false

/-- All sort keys of the batch mutually comparable (trivially true for
batches of length ≤ 1, which perform no comparison). -/
def sortKeysOkB (keys : List PyVal) : Bool :=
  keys.length ≤ 1 || keys.all (fun a => keys.all (fun b => pyCmpOkB a b))

/-- Lines 280-283: `reservations.sort(key=lambda res: res.get(sort_by,
""), reverse=...)`.  Reading a key from a non-dict record raises inside
the sort; incomparable keys raise `TypeError`. -/
def sortRecords (field : String) (desc : Bool) (rs : List PyVal) :
    Except PyErr (List PyVal) := do
  let keys ← exMap (fun r => pyGet? r field (vStr "")) rs
  if sortKeysOkB keys then
    let le := fun r1 r2 =>
      let k1 := r1.pyLookupD field (vStr "")
      let k2 := r2.pyLookupD field (vStr "")
      if desc then pyLeB k2 k1 else pyLeB k1 k2
    pure (stableSort le rs)
  else Except.error PyErr.typeError

def lowerStr (s : String) : String := String.mk (s.data.map Char.toLower)

/-- Line 288 + 289-294: unguarded summary over the filtered, sorted
records, then the combined payload. -/
def finishStage (rs : List PyVal) : Except PyErr ApiResult :=
  (calculate_summary rs false).map (fun s => ApiResult.payload s rs)

/-- Lines 278-286 wrapped in `try`: a failed sort yields the structured
sort-error message. -/
def sortStage (sort_by : Option String) (sort_order : String) (rs : List PyVal) :
    Except PyErr ApiResult :=
  match sort_by with
  | some f =>
    if f ≠ "" then
      match sortRecords f (lowerStr sort_order = "desc") rs with
      | Except.ok rs' => finishStage rs'
      | Except.error _ => Except.ok (ApiResult.message (sortErrMsg f))
    else finishStage rs
  | none => finishStage rs

/-- `get_reservations_as_json` minus fetch and serialisation: empty
check, date-field validation, optional date filter (whole-request error
on failure), status filter (exceptions uncaught), optional sort
(whole-request error on failure), summary, payload. -/
def get_reservations_as_json (reservations : List PyVal) (sort_by : Option String)
    (sort_order : String) (start_date end_date : Option String)
    (date_filter_field : String) (status_filter : Option (List PyVal)) :
    Except PyErr ApiResult :=
  if reservations = [] then Except.ok (ApiResult.message msgNoRes)
  else if ¬ (date_filter_field ∈ validDateFields) then
    Except.ok (ApiResult.message (badFieldMsg date_filter_field))
  else
    match
      (if strTruthy start_date || strTruthy end_date then
        dateStageM date_filter_field start_date end_date reservations
      else Except.ok reservations) with
    | Except.error _ => Except.ok (ApiResult.message msgDateErr)
    | Except.ok rs1 =>
      match statusStage status_filter rs1 with
      | Except.error e => Except.error e
      | Except.ok rs2 => sortStage sort_by sort_order rs2

/-! ### `generate_ics` (lines 296-381)

The JSON round-trip is outside the embedding: the input is the record
list (`data.get("reservations", [])`).  The output is either a
`{"message": ...}` object or the calendar document, kept as its list of
event blocks (the document text is `renderIcs`). -/

inductive IcsResult where
  | jsonMessage (s : String)
  | calendar (events : List String)
deriving DecidableEq, Repr

def msgNoEvents : String := "Nenhum evento válido foi encontrado nas reservas."

def icsHeader : String := "BEGIN:VCALENDAR\nVERSION:2.0\nCALSCALE:GREGORIAN\n"

/-- Left-pad a numeral with zeros (for `strftime`). -/
def natPad (n w : Nat) : String :=
  let s := Nat.repr n
  String.mk (List.replicate (w - s.length) '0') ++ s

/-- `dt.strftime('%Y%m%dT%H%M%SZ')` for the fixed 14:00 / 11:00 times. -/
def fmtStamp (d : Date) (hhmmss : String) : String :=
  natPad d.year 4 ++ natPad d.month 2 ++ natPad d.day 2 ++ "T" ++ hhmmss ++ "Z"

/-- Python `str()` of the values that can appear inside the event text.
Floats and dicts are rendered approximately (their exact Python `repr`
is irrelevant to every stated property). -/
def pyStr : PyVal → String
  | vStr s => s
  | vInt n => toString n
  | vBool b => if b then "True" else "False"
  | vNone => "None"
  | vFloat q => toString q
  | vDictNil => "{}"
  | vDictCons _ _ _ => "{...}"

/-- `datetime.strptime(value, "%Y-%m-%d")` on a record field value. -/
def strpDate (v : PyVal) : Except PyErr Date :=
  match v with
  | vStr s =>
    match parseDate? s with
    | some d => Except.ok d
    | none => Except.error PyErr.valueError
  | _ => Except.error PyErr.typeError

/-- One `VEVENT` block (lines 346-366). -/
def eventBlock (status pname cin cout : PyVal) (cinD coutD : Date)
    (gname gphone gloc na nc ni np : PyVal) : String :=
  "BEGIN:VEVENT\n" ++
  "SUMMARY:Reserva em " ++ pyStr pname ++ "\n" ++
  "DTSTART:" ++ fmtStamp cinD "140000" ++ "\n" ++
  "DTEND:" ++ fmtStamp coutD "110000" ++ "\n" ++
  "DESCRIPTION:Reserva para a propriedade " ++ pyStr pname ++ ".\n" ++
  "Check-in: " ++ pyStr cin ++ ", Check-out: " ++ pyStr cout ++ "\n" ++
  "Status: " ++ pyStr status ++ "\n" ++
  "Adultos: " ++ pyStr na ++ "\n" ++
  "Crianças: " ++ pyStr nc ++ "\n" ++
  "Bebês: " ++ pyStr ni ++ "\n" ++
  "Pets: " ++ pyStr np ++ "\n" ++
  "Hóspede: " ++ pyStr gname ++ " (" ++ pyStr gloc ++ ")\n" ++
  "Contato: " ++ pyStr gphone ++ "\n" ++
  "LOCATION:" ++ pyStr pname ++ "\n" ++
  "END:VEVENT\n"

/-- The per-record `try` body (lines 323-368): field reads, the
missing-dates `continue` (`pure none`), the two `strptime` calls, then
the event block.  An exception (`Except.error`) is caught by the
per-record `except` and the record is skipped. -/
def eventTry (r : PyVal) : Except PyErr (Option String) := do
  let status ← pyGet? r "status" (vStr "Status desconhecido")
  let _code ← pyGet? r "confirmation_code" (vStr "Código não informado")
  let pname ← pyGet? r "property_name" (vStr "Propriedade")
  let cin ← pyGet? r "check_in" (vStr "")
  let cout ← pyGet? r "check_out" (vStr "")
  let guest ← pyGet? r "guest" vDictNil
  let gname ← pyGet? guest "name" (vStr "Nome não informado")
  let gphone ← pyGet? guest "phone" (vStr "Telefone não informado")
  let gloc ← pyGet? guest "location" (vStr "Localização desconhecida")
  let details ← pyGet? guest "details" vDictNil
  let na ← pyGet? details "adults" (vInt 0)
  let nc ← pyGet? details "children" (vInt 0)
  let ni ← pyGet? details "infants" (vInt 0)
  let np ← pyGet? details "pets" (vInt 0)
  if cin.truthyB = false || cout.truthyB = false then pure none
  else do
    let cinD ← strpDate cin
    let coutD ← strpDate cout
    pure (some (eventBlock status pname cin cout cinD coutD gname gphone gloc na nc ni np))

/-- Per-record processing with the catch-all `except` (partial-success
semantics): `none` means the record contributed no event. -/
def processEvent (r : PyVal) : Option String :=
  match eventTry r with
  | Except.ok o => o
  | Except.error _ => none

/-- `generate_ics` on the decoded record list: empty batch → message;
zero added events → "no events" message; otherwise the calendar with
one block per successfully processed record.  Total: never raises. -/
def generate_ics (reservations : List PyVal) : IcsResult :=
  if reservations = [] then IcsResult.jsonMessage msgNoRes
  else
    let events := reservations.filterMap processEvent
    if events.length = 0 then IcsResult.jsonMessage msgNoEvents
    else IcsResult.calendar events

/-- The document text of a calendar result. -/
def renderIcs : IcsResult → String
  | IcsResult.calendar evs => icsHeader ++ String.join evs ++ "END:VCALENDAR\n"
  | IcsResult.jsonMessage m => "\x7b \"message\": \"" ++ m ++ "\" \x7d"

/-! ### Specification-side total counterparts

Total (`Except`-free) functions mirroring the monadic embedding on the
inputs where the latter succeeds; the theorems relate the two. -/

/-- Key used by the cancellation filter: `res.get("status")`. -/
def statusRawKey (r : PyVal) : PyVal := r.pyLookupD "status" vNone

/-- Key used by the histogram: `res.get("status", "unknown")`. -/
def statusHistKey (r : PyVal) : PyVal := r.pyLookupD "status" (vStr "unknown")

/-- A record excluded by the cancellation filter. -/
def isCanceledB (r : PyVal) : Bool := isCancelV (statusRawKey r)

/-- The valid subset (cancellation filter, `include_canceled = False`). -/
def validOf (rs : List PyVal) : List PyVal := rs.filter (fun r => ! isCanceledB r)

/-- The status histogram over the whole batch, keys in discovery order. -/
def histOf (rs : List PyVal) : List (PyVal × Nat) :=
  rs.foldl (fun acc r => bump acc (statusHistKey r)) []

/-- Numeric value of `res.get(field, 0)` (0 when non-numeric, a case the
monadic embedding rejects). -/
def fieldNum (r : PyVal) (field : String) : Rat :=
  ((r.pyLookupD field (vInt 0)).numVal?).getD 0

def earningsTotal (rs : List PyVal) : Rat :=
  ((validOf rs).map (fun r => fieldNum r "earnings")).sum

def nightsTotal (rs : List PyVal) : Rat :=
  ((validOf rs).map (fun r => fieldNum r "nights")).sum

/-- `res.get("property_name", "Unknown")`. -/
def propKey (r : PyVal) : PyVal := r.pyLookupD "property_name" (vStr "Unknown")

def propCountOf (valid : List PyVal) : List (PyVal × Nat) :=
  valid.foldl (fun acc r => bump acc (propKey r)) []

def propEarnOf (valid : List PyVal) : List (PyVal × Rat) :=
  valid.foldl (fun acc r => bumpAdd acc (propKey r) (fieldNum r "earnings")) []

/-- Total version of the earnings entries (used to state what the
monadic one returns when it succeeds). -/
def mkEarnEntriesT (pe : List (PyVal × Rat)) (T : Rat) (pc : List (PyVal × Nat)) :
    List (PyVal × Rat × Rat × Rat) :=
  pe.map (fun kv =>
    let c := (lookupN pc kv.1).getD 0
    (kv.1, round2 kv.2, round2 (kv.2 / T * 100),
      if 0 < c then round2 (kv.2 / (c : Rat)) else 0))

/-- Structural soundness of a record for `calculate_summary`'s non-empty
path: a dict whose `earnings`/`nights` (defaulted) are numbers and whose
`guest` entry is a dict holding a `details` dict with numeric
(defaulted) guest counts. -/
def numFieldOkB (r : PyVal) (field : String) : Bool :=
  (r.pyLookupD field (vInt 0)).numVal?.isSome

def guestStructOkB (r : PyVal) : Bool :=
  match r.pyLookup "guest" with
  | some g =>
    g.isDictB &&
    (match g.pyLookup "details" with
     | some d =>
       d.isDictB && numFieldOkB d "adults" && numFieldOkB d "children" &&
         numFieldOkB d "infants" && numFieldOkB d "pets"
     | none => false)
  | none => false

def structOkB (r : PyVal) : Bool :=
  r.isDictB && numFieldOkB r "earnings" && numFieldOkB r "nights" && guestStructOkB r

/-- Guest-count total over the valid subset for one detail field. -/
def guestTotal (valid : List PyVal) (field : String) : Rat :=
  (valid.map (fun r =>
    (((r.pyLookupD "guest" vNone).pyLookupD "details" vNone).pyLookupD field
        (vInt 0)).numVal?.getD 0)).sum

/-- Date-field value of a record for the date filter. -/
def dateVal (f : String) (r : PyVal) : PyVal := r.pyLookupD f (vStr "")

/-- A record the date-filter predicate evaluates without raising: a dict
whose selected field value is falsy or a parseable date string. -/
def dateRecOkB (f : String) (r : PyVal) : Bool :=
  r.isDictB &&
  (truthyB (dateVal f r) = false ||
    (match dateVal f r with
     | vStr s => (parseDate? s).isSome
     | _ => false))

/-- The records the date filter keeps: truthy, parseable, within the
bounds. -/
def inRangeB (f : String) (sd ed : Option Date) (r : PyVal) : Bool :=
  match dateVal f r with
  | vStr s =>
    s ≠ "" &&
    (match parseDate? s with
     | some d => inBoundsB sd ed d
     | none => false)
  | _ => false

/-- The sort key of a record for field `f`. -/
def sortKey (f : String) (r : PyVal) : PyVal := r.pyLookupD f (vStr "")

/-- Hypothesis for the check-out sort claims: a dict record whose
`check_out` (defaulted) is a string. -/
def checkOutStrB (r : PyVal) : Bool :=
  r.isDictB && (match sortKey "check_out" r with | vStr _ => true | _ => false)

/-- A record `generate_ics` turns into an event: structurally sound for
the field reads, both dates truthy and parseable. -/
def exDateOkB (v : PyVal) : Bool :=
  truthyB v && (match v with | vStr s => (parseDate? s).isSome | _ => false)

def exportableB (r : PyVal) : Bool :=
  r.isDictB &&
  (let g := r.pyLookupD "guest" vDictNil
   g.isDictB && (g.pyLookupD "details" vDictNil).isDictB) &&
  exDateOkB (r.pyLookupD "check_in" (vStr "")) &&
  exDateOkB (r.pyLookupD "check_out" (vStr ""))

/-! ### Result projections (used to state closed consequences) -/

def exOk : Except ε α → Bool
  | Except.ok _ => true
  | Except.error _ => false

def exList : Except PyErr (List PyVal) → List PyVal
  | Except.ok l => l
  | Except.error _ => []

/-- The record list of a successful payload result. -/
def payloadRecs : Except PyErr ApiResult → Option (List PyVal)
  | Except.ok (ApiResult.payload _ l) => some l
  | _ => none

/-- The number of `VEVENT` blocks of a calendar result. -/
def icsEventCount : IcsResult → Nat
  | IcsResult.calendar evs => evs.length
  | IcsResult.jsonMessage _ => 0

def isCalendarB : IcsResult → Bool
  | IcsResult.calendar _ => true
  | IcsResult.jsonMessage _ => false

/-- Sum of the per-property earnings percentages of a summary. -/
def pctSumE (s : Summary) : Rat :=
  (s.earnings_per_property.map (fun e => e.2.2.1)).sum

/-- Sum of the per-property reservation-count percentages. -/
def pctSumC (s : Summary) : Rat :=
  (s.reservations_per_property.map (fun e => e.2.2)).sum

/-- Histogram entry a lookup in the summary's `status_count` should
find: the number of records of the whole batch with that status key
(absent when zero). -/
def histSpec (rs : List PyVal) (st : PyVal) : Option Nat :=
  let k := rs.countP (fun r => statusHistKey r = st)
  if k = 0 then none else some k

/-! ### Infrastructure for concrete evaluation

The Batteries `Rat` operations are `@[irreducible]`, which blocks
`decide` on closed facts about the pipeline; they are made semireducible
for this file so that concrete runs of the embedding reduce. -/

attribute [local semireducible] Rat.add Rat.mul Rat.inv Rat.sub Rat.ofScientific

instance {ε α : Type} [DecidableEq ε] [DecidableEq α] : DecidableEq (Except ε α) := fun a b =>
  match a, b with
  | Except.ok x, Except.ok y => decidable_of_iff (x = y) (by simp)
  | Except.error x, Except.error y => decidable_of_iff (x = y) (by simp)
  | Except.ok _, Except.error _ => isFalse (by simp)
  | Except.error _, Except.ok _ => isFalse (by simp)

/-- A fully normalized sample record (the shape `process_reservation`
emits), used by the concrete witnesses and counterexamples. -/
def sampleRec (name : String) (st : String) (earn : Rat) : PyVal := PyVal.ofDict
  [("status", vStr st), ("confirmation_code", vStr "X1"),
   ("property_name", vStr name), ("booking_date", vStr "2024-01-01"),
   ("check_in", vStr "2024-02-01"), ("check_out", vStr "2024-02-05"),
   ("nights", vInt 4), ("earnings", vFloat earn),
   ("guest", PyVal.ofDict
     [("name", vStr "G"), ("phone", vStr "1"), ("location", vStr "L"),
      ("details", PyVal.ofDict
        [("adults", vInt 2), ("children", vInt 0), ("infants", vInt 0), ("pets", vInt 0)])])]

/-- `sampleRec` with one field deleted (for records lacking a field). -/
def sampleRecDrop (name : String) (st : String) (earn : Rat) (dropKey : String) : PyVal :=
  PyVal.ofDict
    (([("status", vStr st), ("confirmation_code", vStr "X1"),
       ("property_name", vStr name), ("booking_date", vStr "2024-01-01"),
       ("check_in", vStr "2024-02-01"), ("check_out", vStr "2024-02-05"),
       ("nights", vInt 4), ("earnings", vFloat earn)] :
        List (String × PyVal)).filter (fun kv => kv.1 ≠ dropKey) ++
     [("guest", PyVal.ofDict
       [("name", vStr "G"), ("phone", vStr "1"), ("location", vStr "L"),
        ("details", PyVal.ofDict
          [("adults", vInt 2), ("children", vInt 0), ("infants", vInt 0), ("pets", vInt 0)])])])

/-! ### Order lemmas for the lexicographic string order -/

theorem lexLt_irrefl (l : List Char) : lexLtB l l = false := by
  induction l with
  | nil => rfl
  | cons a t ih => simp [lexLtB, ih]

theorem lexLt_asymm {a b : List Char} (h : lexLtB a b = true) : lexLtB b a = false := by
  induction a generalizing b with
  | nil =>
    cases b with
    | nil => simpa [lexLtB] using h
    | cons c cs => simp [lexLtB]
  | cons x xs ih =>
    cases b with
    | nil => simp [lexLtB] at h
    | cons y ys =>
      by_cases hxy : x.toNat < y.toNat
      · have : ¬ y.toNat < x.toNat := by omega
        simp [lexLtB, this, hxy]
      · by_cases hyx : y.toNat < x.toNat
        · simp [lexLtB, hxy, hyx] at h
        · simp only [lexLtB, hxy, hyx, if_neg, if_false] at h ⊢
          exact ih h

theorem lexLt_trans {a b c : List Char} (h1 : lexLtB a b = true) (h2 : lexLtB b c = true) :
    lexLtB a c = true := by
  induction a generalizing b c with
  | nil =>
    cases c with
    | nil =>
      cases b with
      | nil => simpa [lexLtB] using h1
      | cons y ys => simp [lexLtB] at h2
    | cons z zs => simp [lexLtB]
  | cons x xs ih =>
    cases b with
    | nil => simp [lexLtB] at h1
    | cons y ys =>
      cases c with
      | nil => simp [lexLtB] at h2
      | cons z zs =>
        by_cases hxy : x.toNat < y.toNat <;> by_cases hyz : y.toNat < z.toNat
        · have : x.toNat < z.toNat := by omega
          simp [lexLtB, this]
        · by_cases hzy : z.toNat < y.toNat
          · simp [lexLtB, hyz, hzy] at h2
          · have hyz' : y.toNat = z.toNat := by omega
            have : x.toNat < z.toNat := by omega
            simp [lexLtB, this]
        · by_cases hyx : y.toNat < x.toNat
          · simp [lexLtB, hxy, hyx] at h1
          · have hxy' : x.toNat = y.toNat := by omega
            have : x.toNat < z.toNat := by omega
            simp [lexLtB, this]
        · by_cases hyx : y.toNat < x.toNat
          · simp [lexLtB, hxy, hyx] at h1
          · by_cases hzy : z.toNat < y.toNat
            · simp [lexLtB, hyz, hzy] at h2
            · have hxy' : x.toNat = y.toNat := by omega
              have hyz' : y.toNat = z.toNat := by omega
              simp only [lexLtB, hxy, hyx, if_neg, if_false] at h1
              simp only [lexLtB, hyz, hzy, if_neg, if_false] at h2
              have hxz : ¬ x.toNat < z.toNat := by omega
              have hzx : ¬ z.toNat < x.toNat := by omega
              simp only [lexLtB, hxz, hzx, if_neg, if_false]
              exact ih h1 h2

theorem lexLt_connex {a b : List Char} (h1 : lexLtB a b = false) (h2 : lexLtB b a = false) :
    a = b := by
  induction a generalizing b with
  | nil =>
    cases b with
    | nil => rfl
    | cons y ys => simp [lexLtB] at h1
  | cons x xs ih =>
    cases b with
    | nil => simp [lexLtB] at h2
    | cons y ys =>
      by_cases hxy : x.toNat < y.toNat
      · simp [lexLtB, hxy] at h1
      · by_cases hyx : y.toNat < x.toNat
        · simp [lexLtB, hyx] at h2
        · have hx : x = y := by
            have hn : x.toNat = y.toNat := by omega
            unfold Char.toNat at hn
            exact Char.eq_of_val_eq (UInt32.toNat.inj hn)
          subst hx
          simp only [lexLtB, hxy, hyx, if_neg, if_false] at h1 h2
          exact congrArg (x :: ·) (ih h1 h2)

theorem strLe_refl (s : String) : strLeB s s = true := by
  simp [strLeB, lexLt_irrefl]

theorem strLe_total (s t : String) : strLeB s t = true ∨ strLeB t s = true := by
  by_cases h : lexLtB t.data s.data = true
  · right
    simp [strLeB, lexLt_asymm h]
  · left
    simp [strLeB]
    simpa using h

theorem strLe_trans {s t u : String} (h1 : strLeB s t = true) (h2 : strLeB t u = true) :
    strLeB s u = true := by
  simp only [strLeB, Bool.not_eq_true'] at h1 h2 ⊢
  by_cases hus : lexLtB u.data s.data = true
  · by_cases hut : lexLtB u.data t.data = true
    · rw [hut] at h2
      exact absurd h2 (by simp)
    · by_cases htu : lexLtB t.data u.data = true
      · have := lexLt_trans htu hus
        rw [this] at h1
        exact absurd h1 (by simp)
      · have : t.data = u.data := lexLt_connex (by simpa using htu) (by simpa using hut)
        rw [← this] at hus
        rw [hus] at h1
        exact absurd h1 (by simp)
  · simpa using hus

/-! ### Stable sort lemmas -/

theorem ordInsert_perm (le : α → α → Bool) (a : α) (l : List α) :
    (ordInsert le a l).Perm (a :: l) := by
  induction l with
  | nil => exact List.Perm.refl _
  | cons b t ih =>
    by_cases h : le a b = true
    · simp [ordInsert, h]
    · simp only [ordInsert, h, if_false, Bool.not_eq_true]
      exact (ih.cons b).trans (List.Perm.swap a b t)

theorem stableSort_perm (le : α → α → Bool) (l : List α) :
    (stableSort le l).Perm l := by
  induction l with
  | nil => exact List.Perm.refl _
  | cons a t ih =>
    exact (ordInsert_perm le a (stableSort le t)).trans (ih.cons a)

theorem mem_ordInsert {le : α → α → Bool} {a x : α} {l : List α} :
    x ∈ ordInsert le a l ↔ x = a ∨ x ∈ l := by
  rw [(ordInsert_perm le a l).mem_iff]
  simp

theorem mem_stableSort {le : α → α → Bool} {x : α} {l : List α} :
    x ∈ stableSort le l ↔ x ∈ l :=
  (stableSort_perm le l).mem_iff

theorem pairwise_ordInsert (le : α → α → Bool) (a : α) (l : List α)
    (hp : l.Pairwise (fun x y => le x y = true))
    (htot : ∀ x ∈ l, le a x = true ∨ le x a = true)
    (htr : ∀ x ∈ a :: l, ∀ y ∈ a :: l, ∀ z ∈ a :: l,
      le x y = true → le y z = true → le x z = true) :
    (ordInsert le a l).Pairwise (fun x y => le x y = true) := by
  induction l with
  | nil => simp [ordInsert]
  | cons b t ih =>
    rcases List.pairwise_cons.mp hp with ⟨hbt, hpt⟩
    by_cases h : le a b = true
    · simp only [ordInsert, h, if_true]
      refine List.pairwise_cons.mpr ⟨?_, hp⟩
      intro x hx
      rcases List.mem_cons.mp hx with hx | hx
      · subst hx
        exact h
      · exact htr a (by simp) b (by simp) x (by simp [hx]) h (hbt x hx)
    · simp only [ordInsert, h, if_false, Bool.not_eq_true]
      refine List.pairwise_cons.mpr ⟨?_, ?_⟩
      · intro x hx
        rcases mem_ordInsert.mp hx with hx | hx
        · subst hx
          rcases htot b (by simp) with hab | hba
          · exact absurd hab h
          · exact hba
        · exact hbt x hx
      · refine ih hpt (fun x hx => htot x (by simp [hx])) ?_
        intro x hx y hy z hz
        have lift : ∀ w, w ∈ a :: t → w ∈ a :: b :: t := by
          intro w hw
          rcases List.mem_cons.mp hw with hw | hw
          · simp [hw]
          · simp [hw]
        exact htr x (lift x hx) y (lift y hy) z (lift z hz)

theorem stableSort_pairwise (le : α → α → Bool) (l : List α)
    (htot : ∀ x ∈ l, ∀ y ∈ l, le x y = true ∨ le y x = true)
    (htr : ∀ x ∈ l, ∀ y ∈ l, ∀ z ∈ l,
      le x y = true → le y z = true → le x z = true) :
    (stableSort le l).Pairwise (fun x y => le x y = true) := by
  induction l with
  | nil => simp [stableSort]
  | cons a t ih =>
    have hsub : ∀ x, x ∈ stableSort le t → x ∈ t := fun x hx => mem_stableSort.mp hx
    refine pairwise_ordInsert le a (stableSort le t) ?_ ?_ ?_
    · exact ih (fun x hx y hy => htot x (by simp [hx]) y (by simp [hy]))
        (fun x hx y hy z hz => htr x (by simp [hx]) y (by simp [hy]) z (by simp [hz]))
    · intro x hx
      exact htot a (by simp) x (by simp [hsub x hx])
    · intro x hx y hy z hz
      have lift : ∀ w, w ∈ a :: stableSort le t → w ∈ a :: t := by
        intro w hw
        rcases List.mem_cons.mp hw with hw | hw
        · simp [hw]
        · simp [hsub w hw]
      exact htr x (lift x hx) y (lift y hy) z (lift z hz)

theorem ordInsert_filter_pos (le : α → α → Bool) (p : α → Bool) (a : α) (l : List α)
    (hpa : p a = true) (hal : ∀ b ∈ l, p b = true → le a b = true) :
    (ordInsert le a l).filter p = a :: l.filter p := by
  induction l with
  | nil => simp [ordInsert, hpa]
  | cons b t ih =>
    by_cases h : le a b = true
    · simp [ordInsert, h, List.filter_cons, hpa]
    · have hpb : p b = false := by
        by_cases hb : p b = true
        · exact absurd (hal b (by simp) hb) h
        · simpa using hb
      have ih' := ih (fun c hc hpc => hal c (by simp [hc]) hpc)
      simp [ordInsert, h, List.filter_cons, hpb, ih']

theorem ordInsert_filter_neg (le : α → α → Bool) (p : α → Bool) (a : α) (l : List α)
    (hpa : p a = false) :
    (ordInsert le a l).filter p = l.filter p := by
  induction l with
  | nil => simp [ordInsert, hpa]
  | cons b t ih =>
    by_cases h : le a b = true
    · simp [ordInsert, h, List.filter_cons, hpa]
    · simp [ordInsert, h, List.filter_cons, ih]

/-- Stability of `stableSort`: the sorted list restricted to any
equivalence class of keys (any `p`-class on which `le` always holds) is
the input restricted to that class, in input order. -/
theorem stableSort_filter (le : α → α → Bool) (p : α → Bool) (l : List α)
    (hcl : ∀ x ∈ l, ∀ y ∈ l, p x = true → p y = true → le x y = true) :
    (stableSort le l).filter p = l.filter p := by
  induction l with
  | nil => simp [stableSort]
  | cons a t ih =>
    have hsub : ∀ x, x ∈ stableSort le t → x ∈ t := fun x hx => mem_stableSort.mp hx
    by_cases hpa : p a = true
    · have : (ordInsert le a (stableSort le t)).filter p = a :: (stableSort le t).filter p := by
        refine ordInsert_filter_pos le p a (stableSort le t) hpa ?_
        intro b hb hpb
        exact hcl a (by simp) b (by simp [hsub b hb]) hpa hpb
      rw [stableSort, this, List.filter_cons, hpa]
      simp only [if_true]
      rw [ih (fun x hx y hy hpx hpy => hcl x (by simp [hx]) y (by simp [hy]) hpx hpy)]
    · have hpa' : p a = false := by simpa using hpa
      rw [stableSort, ordInsert_filter_neg le p a (stableSort le t) hpa',
        List.filter_cons, hpa']
      simp only [Bool.false_eq_true, if_false]
      exact ih (fun x hx y hy hpx hpy => hcl x (by simp [hx]) y (by simp [hy]) hpx hpy)

/-- When every pair of elements satisfies `le` (all keys tie), the
stable sort is the identity. -/
theorem stableSort_of_all_le (le : α → α → Bool) (l : List α)
    (h : ∀ x ∈ l, ∀ y ∈ l, le x y = true) :
    stableSort le l = l := by
  induction l with
  | nil => rfl
  | cons a t ih =>
    have ht : stableSort le t = t := ih (fun x hx y hy => h x (by simp [hx]) y (by simp [hy]))
    rw [stableSort, ht]
    cases t with
    | nil => rfl
    | cons b u =>
      have : le a b = true := h a (by simp) b (by simp)
      simp [ordInsert, this]

/-! ### Characterisations of the Except-monadic traversals -/

theorem exMap_ok {ε α β : Type} {f : α → Except ε β} {g : α → β} {l : List α}
    (h : ∀ a ∈ l, f a = Except.ok (g a)) : exMap f l = Except.ok (l.map g) := by
  induction l with
  | nil => rfl
  | cons a t ih =>
    simp only [exMap, h a (by simp), ih (fun b hb => h b (by simp [hb])), List.map_cons]

theorem exFilter_ok {ε α : Type} {p : α → Except ε Bool} {q : α → Bool} {l : List α}
    (h : ∀ a ∈ l, p a = Except.ok (q a)) : exFilter p l = Except.ok (l.filter q) := by
  induction l with
  | nil => rfl
  | cons a t ih =>
    simp only [exFilter, h a (by simp), ih (fun b hb => h b (by simp [hb])), List.filter_cons]

theorem exFoldl_ok {ε α β : Type} {f : β → α → Except ε β} {g : β → α → β} {l : List α}
    (h : ∀ b, ∀ a ∈ l, f b a = Except.ok (g b a)) :
    ∀ b, exFoldl f b l = Except.ok (l.foldl g b) := by
  induction l with
  | nil => intro b; rfl
  | cons a t ih =>
    intro b
    simp only [exFoldl, h b a (by simp), List.foldl_cons]
    exact ih (fun b' a' ha' => h b' a' (by simp [ha'])) (g b a)

/-! ### Claim C7 -/

/-- Sort key order on records for the `check_out` ascending sort. -/
def coLeB (r1 r2 : PyVal) : Bool :=
  pyLeB (sortKey "check_out" r1) (sortKey "check_out" r2)

theorem pyLeB_str (s t : String) : pyLeB (vStr s) (vStr t) = strLeB s t := rfl

theorem checkOutStrB_parts {r : PyVal} (h : checkOutStrB r = true) :
    r.isDictB = true ∧ ∃ s, sortKey "check_out" r = vStr s := by
  simp only [checkOutStrB, Bool.and_eq_true] at h
  refine ⟨h.1, ?_⟩
  rcases h with ⟨h1, h2⟩
  cases hk : sortKey "check_out" r <;> simp [hk] at h2 ⊢

/-- Claim C7: sorting a batch of records (each a dict whose `check_out`
value is a string, as the claim's "check-out date values" presupposes)
by `check_out` ascending succeeds and yields a permutation of the batch
that is non-decreasing in the check-out key, and the sort is stable:
for every key value, the records carrying that key appear in their
original relative order. -/
theorem claim_C7_sort_checkout (rs : List PyVal) (h : rs.all checkOutStrB = true) :
    sortRecords "check_out" false rs = Except.ok (stableSort coLeB rs) ∧
    (stableSort coLeB rs).Perm rs ∧
    (stableSort coLeB rs).Pairwise (fun r1 r2 => coLeB r1 r2 = true) ∧
    (∀ k : PyVal, (stableSort coLeB rs).filter (fun r => sortKey "check_out" r == k) =
      rs.filter (fun r => sortKey "check_out" r == k)) := by
  have hparts : ∀ r ∈ rs, r.isDictB = true ∧ ∃ s, sortKey "check_out" r = vStr s :=
    fun r hr => checkOutStrB_parts (List.all_eq_true.mp h r hr)
  have hkeys : exMap (fun r => pyGet? r "check_out" (vStr "")) rs =
      Except.ok (rs.map (sortKey "check_out")) := by
    refine exMap_ok ?_
    intro r hr
    simp [pyGet?, (hparts r hr).1, sortKey]
  have hcmp : sortKeysOkB (rs.map (sortKey "check_out")) = true := by
    simp only [sortKeysOkB]
    simp
    refine Or.inr ?_
    intro x hx y hy
    rcases (hparts x hx).2 with ⟨s1, hs1⟩
    rcases (hparts y hy).2 with ⟨s2, hs2⟩
    rw [hs1, hs2]
    rfl
  have htot : ∀ x ∈ rs, ∀ y ∈ rs, coLeB x y = true ∨ coLeB y x = true := by
    intro x hx y hy
    rcases (hparts x hx).2 with ⟨s1, hs1⟩
    rcases (hparts y hy).2 with ⟨s2, hs2⟩
    rw [coLeB, coLeB, hs1, hs2, pyLeB_str, pyLeB_str]
    exact strLe_total s1 s2
  have htr : ∀ x ∈ rs, ∀ y ∈ rs, ∀ z ∈ rs,
      coLeB x y = true → coLeB y z = true → coLeB x z = true := by
    intro x hx y hy z hz
    rcases (hparts x hx).2 with ⟨s1, hs1⟩
    rcases (hparts y hy).2 with ⟨s2, hs2⟩
    rcases (hparts z hz).2 with ⟨s3, hs3⟩
    rw [coLeB, coLeB, coLeB, hs1, hs2, hs3, pyLeB_str, pyLeB_str, pyLeB_str]
    exact strLe_trans
  refine ⟨?_, stableSort_perm coLeB rs, stableSort_pairwise coLeB rs htot htr, ?_⟩
  · rw [sortRecords, hkeys]
    simp only [Except.bind, bind]
    rw [if_pos hcmp]
    rfl
  · intro k
    refine stableSort_filter coLeB _ rs ?_
    intro x hx y hy hpx hpy
    rcases (hparts x hx).2 with ⟨s1, hs1⟩
    rcases (hparts y hy).2 with ⟨s2, hs2⟩
    have hkx : sortKey "check_out" x = k := by simpa using hpx
    have hky : sortKey "check_out" y = k := by simpa using hpy
    rw [coLeB, hs1, hs2, pyLeB_str]
    have : s1 = s2 := by
      rw [hs1] at hkx
      rw [hs2] at hky
      rw [← hky] at hkx
      exact (vStr.injEq s1 s2).mp hkx
    rw [this]
    exact strLe_refl s2

/-- A minimal record with a confirmation code and a check-out date. -/
def recCO (code co : String) : PyVal :=
  PyVal.ofDict [("confirmation_code", vStr code), ("check_out", vStr co)]

def claimC7batch : List PyVal :=
  [recCO "x" "2024-03-01", recCO "y" "2024-01-01", recCO "z" "2024-01-01"]

/-- Witness for C7: the sort property holds at a concrete three-record
batch containing a check-out tie. -/
theorem claim_C7_witness :
    (stableSort coLeB claimC7batch).Perm claimC7batch ∧
    (stableSort coLeB claimC7batch).Pairwise (fun r1 r2 => coLeB r1 r2 = true) := by
  have h := claim_C7_sort_checkout claimC7batch (by decide)
  exact ⟨h.2.1, h.2.2.1⟩

/-! ### Claim C9: the currency pattern -/

/-- Well-formed thousands grouping for the `R$x.xxx,yy` pattern: a
non-empty leading group of at most three digits followed by exactly
three-digit groups. -/
def groupsOkB : List (List Char) → Bool
  | [] => false
  | g :: t =>
    decide (g ≠ []) && decide (g.length ≤ 3) && g.all isDigitB &&
      t.all (fun h => decide (h.length = 3) && h.all isDigitB)

/-- The integer part with `.` thousands separators. -/
def dotJoin : List (List Char) → List Char
  | [] => []
  | [g] => g
  | g :: t => g ++ '.' :: dotJoin t

/-- The full `R$<groups>,<two decimals>` string of the claim. -/
def currencyChars (gs : List (List Char)) (d1 d2 : Char) : List Char :=
  'R' :: '$' :: (dotJoin gs ++ [',', d1, d2])

def currencyStr (gs : List (List Char)) (d1 d2 : Char) : String :=
  String.mk (currencyChars gs d1 d2)

/-- The decimal value the pattern denotes. -/
def currencyVal (gs : List (List Char)) (d1 d2 : Char) : Rat :=
  (digitsVal gs.join : Rat) + ((10 * digitVal d1 + digitVal d2 : Nat) : Rat) / 100

theorem replaceFuel_no_head {p : Char} {pt rep : List Char} {l : List Char} (hp : p ∉ l) :
    ∀ fuel, replaceFuel (p :: pt) rep fuel l = l := by
  induction l with
  | nil => intro fuel; cases fuel <;> rfl
  | cons c cs ih =>
    intro fuel
    cases fuel with
    | zero => rfl
    | succ f =>
      have hpc : p ≠ c := fun hh => hp (by simp [hh])
      have hcp : (p :: pt).isPrefixOf (c :: cs) = false := by
        simp [List.isPrefixOf, hpc]
      rw [replaceFuel, if_neg (by simp [hcp])]
      exact congrArg (c :: ·) (ih (fun hm => hp (by simp [hm])) f)

theorem replaceL_strip_currency (l : List Char) (hR : 'R' ∉ l) :
    replaceL ['R', '$'] [] ('R' :: '$' :: l) = l := by
  rw [replaceL]
  simp only [List.length_cons]
  rw [replaceFuel, if_pos (by simp [List.isPrefixOf])]
  simp only [List.nil_append]
  have hdrop : List.drop (['R', '$'].length) ('R' :: '$' :: l) = l := by simp
  rw [hdrop]
  exact replaceFuel_no_head hR _

theorem replaceFuel_dot (l : List Char) :
    ∀ fuel, l.length ≤ fuel →
      replaceFuel ['.'] [] fuel l = l.filter (fun c => c ≠ '.') := by
  induction l with
  | nil => intro fuel _; cases fuel <;> rfl
  | cons c cs ih =>
    intro fuel hf
    cases fuel with
    | zero => simp at hf
    | succ f =>
      by_cases hc : c = '.'
      · subst hc
        rw [replaceFuel, if_pos (by simp [List.isPrefixOf])]
        simp only [List.nil_append, List.length_singleton, List.drop_succ_cons, List.drop_zero]
        rw [ih f (by simpa using hf)]
        simp [List.filter_cons]
      · have hcp : (['.'] : List Char).isPrefixOf (c :: cs) = false := by
          simp [List.isPrefixOf]
          exact fun hh => absurd hh.symm hc
        rw [replaceFuel, if_neg (by simp [hcp])]
        rw [ih f (by simpa using hf)]
        simp [List.filter_cons, hc]

theorem replaceFuel_comma (l : List Char) :
    ∀ fuel, l.length ≤ fuel →
      replaceFuel [','] ['.'] fuel l = l.map (fun c => if c = ',' then '.' else c) := by
  induction l with
  | nil => intro fuel _; cases fuel <;> rfl
  | cons c cs ih =>
    intro fuel hf
    cases fuel with
    | zero => simp at hf
    | succ f =>
      by_cases hc : c = ','
      · subst hc
        rw [replaceFuel, if_pos (by simp [List.isPrefixOf])]
        simp only [List.length_singleton, List.drop_succ_cons, List.drop_zero]
        rw [ih f (by simpa using hf)]
        simp
      · have hcp : ([','] : List Char).isPrefixOf (c :: cs) = false := by
          simp [List.isPrefixOf]
          exact fun hh => absurd hh.symm hc
        rw [replaceFuel, if_neg (by simp [hcp])]
        rw [ih f (by simpa using hf)]
        simp [hc]

theorem digit_ne {c d : Char} (h : isDigitB c = true) (hd : isDigitB d = false) : c ≠ d := by
  intro he
  rw [he, hd] at h
  cases h

theorem digit_not_space {c : Char} (h : isDigitB c = true) : isSpaceB c = false := by
  by_contra hs
  have hs' : isSpaceB c = true := by simpa using hs
  simp only [isSpaceB, Bool.or_eq_true, decide_eq_true_eq] at hs'
  rcases hs' with ((((h1 | h1) | h1) | h1) | h1) | h1 <;> (subst h1; simp [isDigitB] at h)

theorem mem_dotJoin {c : Char} {gs : List (List Char)} (h : c ∈ dotJoin gs) :
    c = '.' ∨ ∃ g ∈ gs, c ∈ g := by
  induction gs with
  | nil => simp [dotJoin] at h
  | cons g t ih =>
    cases t with
    | nil =>
      simp only [dotJoin] at h
      exact Or.inr ⟨g, by simp, h⟩
    | cons g' t' =>
      simp only [dotJoin, List.mem_append, List.mem_cons] at h
      rcases h with h | h | h
      · exact Or.inr ⟨g, by simp, h⟩
      · exact Or.inl h
      · rcases ih h with h' | ⟨g2, hg2, hc2⟩
        · exact Or.inl h'
        · exact Or.inr ⟨g2, by simp [hg2], hc2⟩

theorem dotJoin_filter (gs : List (List Char)) (h : ∀ g ∈ gs, ∀ c ∈ g, isDigitB c = true) :
    (dotJoin gs).filter (fun c => c ≠ '.') = gs.join := by
  induction gs with
  | nil => rfl
  | cons g t ih =>
    cases t with
    | nil =>
      simp only [dotJoin, List.join]
      rw [List.filter_eq_self.mpr ?_]
      · simp
      · intro c hc
        simpa using digit_ne (h g (by simp) c hc) (by decide)
    | cons g' t' =>
      have hg : ∀ c ∈ g, isDigitB c = true := h g (by simp)
      have ht : ∀ g2 ∈ g' :: t', ∀ c ∈ g2, isDigitB c = true :=
        fun g2 hg2 c hc => h g2 (by simp [hg2]) c hc
      simp only [dotJoin, List.filter_append, List.filter_cons]
      rw [List.filter_eq_self.mpr (fun c hc => by simpa using digit_ne (hg c hc) (by decide))]
      rw [ih ht]
      simp [List.join]

theorem mapNoComma (l : List Char) (h : ∀ c ∈ l, c ≠ ',') :
    l.map (fun c => if c = ',' then '.' else c) = l := by
  induction l with
  | nil => rfl
  | cons c cs ih =>
    simp only [List.map_cons, if_neg (h c (by simp))]
    rw [ih (fun c' hc' => h c' (by simp [hc']))]

theorem takeWhile_append_stop {p : Char → Bool} {l r : List Char} {c : Char}
    (hl : ∀ x ∈ l, p x = true) (hc : p c = false) :
    (l ++ c :: r).takeWhile p = l ∧ (l ++ c :: r).dropWhile p = c :: r := by
  induction l with
  | nil => simp [List.takeWhile_cons, List.dropWhile_cons, hc]
  | cons a t ih =>
    have ha : p a = true := hl a (by simp)
    have iht := ih (fun x hx => hl x (by simp [hx]))
    simp only [List.cons_append, List.takeWhile_cons, List.dropWhile_cons, ha, if_true]
    exact ⟨by rw [iht.1], by rw [iht.2]⟩

theorem dropWhile_none {p : Char → Bool} {l : List Char} (h : ∀ c ∈ l, p c = false) :
    l.dropWhile p = l := by
  cases l with
  | nil => rfl
  | cons a t => simp [List.dropWhile_cons, h a (by simp)]

theorem stripWs_no_space {l : List Char} (h : ∀ c ∈ l, isSpaceB c = false) : stripWs l = l := by
  rw [stripWs, dropWhile_none h, dropWhile_none (fun c hc => h c (by simpa using hc))]
  simp

theorem parseFloat_digits_frac (ip : List Char) (d1 d2 : Char)
    (hip : ∀ c ∈ ip, isDigitB c = true) (hne : ip ≠ [])
    (h1 : isDigitB d1 = true) (h2 : isDigitB d2 = true) :
    parseFloatCore (ip ++ '.' :: [d1, d2]) =
      some ((digitsVal ip : Rat) + ((digitsVal [d1, d2] : Nat) : Rat) / 100) := by
  obtain ⟨a, ip', rfl⟩ : ∃ a ip', ip = a :: ip' := by
    cases ip with
    | nil => exact absurd rfl hne
    | cons a ip' => exact ⟨a, ip', rfl⟩
  have ha : isDigitB a = true := hip a (by simp)
  have hna : a ≠ '-' := digit_ne ha (by decide)
  have hnb : a ≠ '+' := digit_ne ha (by decide)
  have hsplit := takeWhile_append_stop (p := isDigitB) (r := [d1, d2]) (c := '.') hip (by decide)
  have hfp : List.takeWhile isDigitB [d1, d2] = [d1, d2] := by
    rw [List.takeWhile_cons, if_pos h1, List.takeWhile_cons, if_pos h2]
    rfl
  have hfp' : List.dropWhile isDigitB [d1, d2] = [] := by
    rw [List.dropWhile_cons, if_pos h1, List.dropWhile_cons, if_pos h2]
    rfl
  rw [parseFloatCore]
  have hm : (a = '-') = False := by simp [hna]
  have hp : (a = '+') = False := by simp [hnb]
  simp only [List.cons_append] at hsplit
  simp only [List.cons_append, List.head?_cons, Option.some.injEq, hm, hp, false_or, or_false,
    if_false, hsplit.1, hsplit.2, hfp, hfp', List.tail_cons, List.length_cons, List.length_nil]
  simp
  norm_num

theorem groupsOk_parts {gs : List (List Char)} (hg : groupsOkB gs = true) :
    (∀ g ∈ gs, ∀ c ∈ g, isDigitB c = true) ∧ gs.join ≠ [] := by
  cases gs with
  | nil => cases hg
  | cons g t =>
    simp only [groupsOkB, Bool.and_eq_true, decide_eq_true_eq, List.all_eq_true] at hg
    obtain ⟨⟨⟨hne, _⟩, hgd⟩, htd⟩ := hg
    constructor
    · intro g' hg' c hc
      rcases List.mem_cons.mp hg' with hg' | hg'
      · subst hg'
        exact hgd c hc
      · have hh := htd g' hg'
        simp only [Bool.and_eq_true, List.all_eq_true] at hh
        exact hh.2 c hc
    · simp only [List.join]
      intro hj
      exact hne (List.append_eq_nil.mp hj).1

/-- Claim C9 (core equality): on every well-formed
`R$<thousands-grouped integer>,<two decimals>` string, `format_earnings`
returns the denoted decimal value; and concrete malformed / absent /
non-string inputs yield `0.0` (the function is total, so it never
raises). -/
theorem claim_C9_currency (gs : List (List Char)) (d1 d2 : Char)
    (hg : groupsOkB gs = true) (h1 : isDigitB d1 = true) (h2 : isDigitB d2 = true) :
    format_earnings (vStr (currencyStr gs d1 d2)) = currencyVal gs d1 d2 ∧
    format_earnings (vStr "abc") = 0 ∧
    format_earnings (vStr "") = 0 ∧
    format_earnings vNone = 0 := by
  refine ⟨?_, by decide, by decide, by decide⟩
  obtain ⟨hall, hjne⟩ := groupsOk_parts hg
  have hjd : ∀ c ∈ gs.join, isDigitB c = true := by
    intro c hc
    rcases List.mem_join.mp hc with ⟨g, hgm, hcg⟩
    exact hall g hgm c hcg
  have hd1c : d1 ≠ ',' := digit_ne h1 (by decide)
  have hd2c : d2 ≠ ',' := digit_ne h2 (by decide)
  have hRnot : 'R' ∉ dotJoin gs ++ [',', d1, d2] := by
    intro hmem
    rcases List.mem_append.mp hmem with hmem | hmem
    · rcases mem_dotJoin hmem with h' | ⟨g, hgm, hcg⟩
      · exact absurd h' (by decide)
      · exact absurd (hall g hgm 'R' hcg) (by decide)
    · simp only [List.mem_cons, List.not_mem_nil, or_false] at hmem
      rcases hmem with h' | h' | h'
      · exact absurd h' (by decide)
      · rw [← h'] at h1
        exact absurd h1 (by decide)
      · rw [← h'] at h2
        exact absurd h2 (by decide)
  have e1 : pyReplace (currencyStr gs d1 d2) "R$" "" =
      String.mk (dotJoin gs ++ [',', d1, d2]) := by
    rw [pyReplace]
    congr 1
    have hd : "R$".data = ['R', '$'] := by decide
    have he : "".data = ([] : List Char) := by decide
    have hs : (currencyStr gs d1 d2).data = 'R' :: '$' :: (dotJoin gs ++ [',', d1, d2]) := rfl
    rw [hd, he, hs]
    exact replaceL_strip_currency _ hRnot
  have e2 : pyReplace (String.mk (dotJoin gs ++ [',', d1, d2])) "." "" =
      String.mk (gs.join ++ [',', d1, d2]) := by
    rw [pyReplace]
    congr 1
    have hd : ".".data = ['.'] := by decide
    have he : "".data = ([] : List Char) := by decide
    rw [hd, he]
    show replaceL ['.'] [] (dotJoin gs ++ [',', d1, d2]) = _
    rw [replaceL, replaceFuel_dot _ _ le_rfl, List.filter_append, dotJoin_filter gs hall]
    congr 1
    rw [List.filter_eq_self.mpr ?_]
    intro c hc
    simp only [List.mem_cons, List.not_mem_nil, or_false] at hc
    rcases hc with h' | h' | h' <;> subst h'
    · decide
    · simpa using digit_ne h1 (by decide)
    · simpa using digit_ne h2 (by decide)
  have e3 : pyReplace (String.mk (gs.join ++ [',', d1, d2])) "," "." =
      String.mk (gs.join ++ ['.', d1, d2]) := by
    rw [pyReplace]
    congr 1
    have hd : ",".data = [','] := by decide
    have he : ".".data = ['.'] := by decide
    rw [hd, he]
    show replaceL [','] ['.'] (gs.join ++ [',', d1, d2]) = _
    rw [replaceL, replaceFuel_comma _ _ le_rfl, List.map_append]
    rw [mapNoComma gs.join (fun c hc => digit_ne (hjd c hc) (by decide))]
    congr 1
    simp [hd1c, hd2c]
  have hnospace : ∀ c ∈ gs.join ++ '.' :: [d1, d2], isSpaceB c = false := by
    intro c hc
    rcases List.mem_append.mp hc with hc | hc
    · exact digit_not_space (hjd c hc)
    · simp only [List.mem_cons, List.not_mem_nil, or_false] at hc
      rcases hc with h' | h' | h' <;> subst h'
      · decide
      · exact digit_not_space h1
      · exact digit_not_space h2
  have e4 : parseFloat? (String.mk (gs.join ++ ['.', d1, d2])) =
      some ((digitsVal gs.join : Rat) + ((digitsVal [d1, d2] : Nat) : Rat) / 100) := by
    rw [parseFloat?]
    have hdata : (String.mk (gs.join ++ ['.', d1, d2])).data = gs.join ++ '.' :: [d1, d2] := rfl
    rw [hdata, stripWs_no_space hnospace]
    exact parseFloat_digits_frac gs.join d1 d2 hjd hjne h1 h2
  show format_earnings (vStr (currencyStr gs d1 d2)) = currencyVal gs d1 d2
  rw [format_earnings, e1, e2, e3, e4]
  rw [currencyVal]
  congr 1
  congr 1
  simp [digitsVal, digitVal]

/-- Witness for C9: the pattern theorem applied to the spec's own
example `"R$1.234,56" ↦ 1234.56`. -/
theorem claim_C9_witness : format_earnings (vStr "R$1.234,56") = (1234.56 : Rat) := by
  have h := (claim_C9_currency [['1'], ['2', '3', '4']] '5' '6'
    (by decide) (by decide) (by decide)).1
  have hs : currencyStr [['1'], ['2', '3', '4']] '5' '6' = "R$1.234,56" := by decide
  have hv : currencyVal [['1'], ['2', '3', '4']] '5' '6' = (1234.56 : Rat) := by decide
  rw [hs, hv] at h
  exact h

/-! ### Claim C8 -/

theorem bindE_ok {ε α β : Type} (a : α) (f : α → Except ε β) :
    (Except.ok a : Except ε α) >>= f = f a := rfl

theorem bindE_error {ε α β : Type} (e : ε) (f : α → Except ε β) :
    (Except.error e : Except ε α) >>= f = Except.error e := rfl

/-- Every record is processed to at most one event, exactly when it is
exportable. -/
theorem processEvent_isSome (r : PyVal) : (processEvent r).isSome = exportableB r := by
  by_cases hd : r.isDictB = true
  case neg =>
    have hd' : r.isDictB = false := by simpa using hd
    simp [processEvent, eventTry, pyGet?, hd', exportableB, bindE_ok, bindE_error]
  case pos =>
    by_cases hg : (r.pyLookupD "guest" vDictNil).isDictB = true
    case neg =>
      have hg' : (r.pyLookupD "guest" vDictNil).isDictB = false := by simpa using hg
      simp [processEvent, eventTry, pyGet?, hd, hg', exportableB, bindE_ok, bindE_error]
    case pos =>
      by_cases hdt : ((r.pyLookupD "guest" vDictNil).pyLookupD "details" vDictNil).isDictB = true
      case neg =>
        have hdt' : ((r.pyLookupD "guest" vDictNil).pyLookupD "details" vDictNil).isDictB =
            false := by simpa using hdt
        simp [processEvent, eventTry, pyGet?, hd, hg, hdt', exportableB, bindE_ok, bindE_error]
      case pos =>
        simp only [processEvent, eventTry, pyGet?, hd, hg, hdt, if_true, if_pos, bindE_ok,
          bindE_error]
        have hexp : exportableB r = (exDateOkB (r.pyLookupD "check_in" (vStr "")) &&
            exDateOkB (r.pyLookupD "check_out" (vStr ""))) := by
          simp [exportableB, hd, hg, hdt]
        rw [hexp]
        generalize r.pyLookupD "check_in" (vStr "") = cin
        generalize r.pyLookupD "check_out" (vStr "") = cout
        by_cases htc : (decide (truthyB cin = false) || decide (truthyB cout = false)) = true
        · rw [if_pos htc]
          simp only [Bool.or_eq_true, decide_eq_true_eq] at htc
          rcases htc with h | h <;> simp [exDateOkB, h, pure, Except.pure]
        · have htc2 := htc
          simp only [Bool.or_eq_true, decide_eq_true_eq, not_or] at htc2
          have htcin : truthyB cin = true := by
            rcases htc2 with ⟨h1, _⟩
            simpa using h1
          have htcout : truthyB cout = true := by
            rcases htc2 with ⟨_, h2⟩
            simpa using h2
          rw [if_neg htc]
          cases cin with
          | vStr s =>
            cases hp : parseDate? s with
            | none =>
              simp [strpDate, hp, exDateOkB, htcin, bindE_error, bindE_ok, pure, Except.pure]
            | some d =>
              cases cout with
              | vStr s2 =>
                cases hp2 : parseDate? s2 with
                | none =>
                  simp [strpDate, hp, hp2, exDateOkB, htcin, htcout, bindE_error, bindE_ok,
                    pure, Except.pure]
                | some d2 =>
                  simp [strpDate, hp, hp2, exDateOkB, htcin, htcout, bindE_error, bindE_ok,
                    pure, Except.pure]
              | vNone =>
                simp [strpDate, hp, exDateOkB, htcin, htcout, bindE_error, bindE_ok, pure,
                  Except.pure]
              | vBool b =>
                simp [strpDate, hp, exDateOkB, htcin, htcout, bindE_error, bindE_ok, pure,
                  Except.pure]
              | vInt n =>
                simp [strpDate, hp, exDateOkB, htcin, htcout, bindE_error, bindE_ok, pure,
                  Except.pure]
              | vFloat q =>
                simp [strpDate, hp, exDateOkB, htcin, htcout, bindE_error, bindE_ok, pure,
                  Except.pure]
              | vDictNil =>
                simp [strpDate, hp, exDateOkB, htcin, htcout, bindE_error, bindE_ok, pure,
                  Except.pure]
              | vDictCons k v rest =>
                simp [strpDate, hp, exDateOkB, htcin, htcout, bindE_error, bindE_ok, pure,
                  Except.pure]
          | vNone => simp [strpDate, exDateOkB, bindE_error, bindE_ok]
          | vBool b => simp [strpDate, exDateOkB, bindE_error, bindE_ok]
          | vInt n => simp [strpDate, exDateOkB, bindE_error, bindE_ok]
          | vFloat q => simp [strpDate, exDateOkB, bindE_error, bindE_ok]
          | vDictNil => simp [strpDate, exDateOkB, bindE_error, bindE_ok]
          | vDictCons k v rest => simp [strpDate, exDateOkB, bindE_error, bindE_ok]

theorem length_filterMap_countP {α β : Type} (f : α → Option β) (l : List α) :
    (l.filterMap f).length = l.countP (fun a => (f a).isSome) := by
  induction l with
  | nil => rfl
  | cons a t ih =>
    cases hf : f a <;> simp [List.filterMap_cons, hf, List.countP_cons, ih]

/-- Claim C8: `generate_ics` never raises (it is a total function), has
partial-success semantics — exactly one event block per exportable
record (a record with both check-in and check-out dates present,
parseable, and a structurally sound shape), skipping the others — and
returns the structured messages on an empty batch and on a zero event
count instead of a calendar document. -/
theorem claim_C8_export_calendar (rs : List PyVal) :
    (rs = [] → generate_ics rs = IcsResult.jsonMessage msgNoRes) ∧
    (rs ≠ [] → rs.countP exportableB = 0 →
      generate_ics rs = IcsResult.jsonMessage msgNoEvents) ∧
    (rs ≠ [] → icsEventCount (generate_ics rs) = rs.countP exportableB) ∧
    (rs ≠ [] → 0 < rs.countP exportableB → isCalendarB (generate_ics rs) = true) := by
  have hcount : (rs.filterMap processEvent).length = rs.countP exportableB := by
    rw [length_filterMap_countP]
    congr 1
    funext a
    exact processEvent_isSome a
  refine ⟨?_, ?_, ?_, ?_⟩
  · intro h
    simp [generate_ics, h]
  · intro hne hz
    rw [generate_ics, if_neg hne]
    rw [if_pos (by rw [hcount]; exact hz)]
  · intro hne
    rw [generate_ics, if_neg hne]
    by_cases hz : (rs.filterMap processEvent).length = 0
    · rw [if_pos hz, icsEventCount]
      rw [hcount] at hz
      exact hz.symm
    · rw [if_neg hz, icsEventCount]
      exact hcount
  · intro hne hpos
    rw [generate_ics, if_neg hne]
    rw [if_neg (by rw [hcount]; omega)]
    rfl

def claimC8batch : List PyVal :=
  [sampleRec "A" "ok" 10, sampleRecDrop "B" "ok" 5 "check_in", sampleRec "C" "ok" 7]

/-- Witness for C8: a three-record batch where one record lacks
`check_in` yields exactly two event blocks, and the result is a
calendar document, not a message. -/
theorem claim_C8_witness :
    icsEventCount (generate_ics claimC8batch) = 2 ∧
    isCalendarB (generate_ics claimC8batch) = true := by
  have h := claim_C8_export_calendar claimC8batch
  have hne : claimC8batch ≠ [] := by decide
  have hc : claimC8batch.countP exportableB = 2 := by decide
  refine ⟨?_, h.2.2.2 hne (by rw [hc]; omega)⟩
  rw [h.2.2.1 hne, hc]

/-! ### Claim C10 -/

/-- Claim C10 (code bug): the empty placeholder record `{}` (which the
normalizer emits on structural failure, and which lacks `status`) is
treated as valid by the cancellation filter and is counted in the
histogram under `"unknown"` — but `calculate_summary` then raises
`KeyError('guest')` at the guest-details sums (line 143,
`res["guest"]["details"]`) instead of contributing zero values to the
other statistics. -/
theorem claim_C10_placeholder_keyerror :
    calculate_summary [vDictNil] false = Except.error (PyErr.keyError (vStr "guest")) ∧
    validM [vDictNil] false = Except.ok [vDictNil] ∧
    histM [vDictNil] = Except.ok [(vStr "unknown", 1)] := by
  exact ⟨by decide, by decide, by decide⟩

/-! ### Monadic/total characterisations for the aggregator -/

theorem foldl_add_eq_sum {α : Type} (g : α → Rat) (l : List α) :
    ∀ c : Rat, l.foldl (fun a x => a + g x) c = c + (l.map g).sum := by
  induction l with
  | nil => intro c; simp
  | cons a t ih =>
    intro c
    simp only [List.foldl_cons, List.map_cons, List.sum_cons, ih (c + g a)]
    ring

theorem validM_ok {rs : List PyVal} (hd : ∀ r ∈ rs, r.isDictB = true) :
    validM rs false = Except.ok (validOf rs) := by
  rw [validM, if_neg (by simp)]
  exact exFilter_ok (fun r hr => by
    simp [pyGet?, hd r hr, bindE_ok, validOf, isCanceledB, statusRawKey])

theorem validM_ok_inv {rs : List PyVal} {out : List PyVal}
    (h : validM rs false = Except.ok out) :
    (∀ r ∈ rs, r.isDictB = true) ∧ out = validOf rs := by
  rw [validM, if_neg (by simp)] at h
  induction rs generalizing out with
  | nil =>
    refine ⟨by simp, ?_⟩
    simp only [exFilter] at h
    cases h
    rfl
  | cons r t ih =>
    simp only [exFilter] at h
    cases hget : pyGet? r "status" vNone with
    | error e => rw [hget] at h; simp [bindE_error] at h
    | ok st =>
      rw [hget] at h
      have hdr : r.isDictB = true := by
        by_contra hc
        simp [pyGet?, hc] at hget
      simp only [bindE_ok] at h
      cases hrest : exFilter (fun r => do
          let st ← pyGet? r "status" vNone
          pure (! isCancelV st)) t with
      | error e => rw [hrest] at h; cases h
      | ok lt =>
        rw [hrest] at h
        obtain ⟨hdt, hlt⟩ := ih hrest
        have hst : st = r.pyLookupD "status" vNone := by
          simp [pyGet?, hdr] at hget
          exact hget.symm
        refine ⟨?_, ?_⟩
        · intro r' hr'
          rcases List.mem_cons.mp hr' with hr' | hr'
          · subst hr'; exact hdr
          · exact hdt r' hr'
        · cases h
          subst hst
          rw [hlt]
          show (if (! isCancelV (r.pyLookupD "status" vNone)) = true
              then r :: validOf t else validOf t) = validOf (r :: t)
          simp only [validOf, List.filter_cons, isCanceledB, statusRawKey]

theorem histM_ok {rs : List PyVal} (hd : ∀ r ∈ rs, r.isDictB = true) :
    histM rs = Except.ok (histOf rs) := by
  rw [histM, histOf]
  exact exFoldl_ok (fun acc r hr => by
    simp [pyGet?, hd r hr, bindE_ok, statusHistKey]) []

theorem sumFieldM_ok {valid : List PyVal} {field : String}
    (h : ∀ r ∈ valid, r.isDictB = true ∧ numFieldOkB r field = true) :
    sumFieldM valid field = Except.ok ((valid.map (fun r => fieldNum r field)).sum) := by
  rw [sumFieldM]
  have hfold := exFoldl_ok (ε := PyErr) (f := fun acc r => do
      let v ← pyGet? r field (vInt 0)
      match v.numVal? with
      | some q => pure (acc + q)
      | none => Except.error PyErr.typeError)
    (g := fun acc r => acc + fieldNum r field) (l := valid) ?_ 0
  · rw [hfold, foldl_add_eq_sum]
    norm_num
  · intro b r hr
    obtain ⟨hdr, hnr⟩ := h r hr
    simp only [pyGet?, hdr, if_true, bindE_ok]
    rcases ho : (r.pyLookupD field (vInt 0)).numVal? with _ | q
    · exfalso
      simp [numFieldOkB, ho] at hnr
    · simp only [fieldNum, ho, Option.getD_some]
      rfl

theorem sumFieldM_inv {valid : List PyVal} {field : String} {q : Rat}
    (h : sumFieldM valid field = Except.ok q) :
    q = (valid.map (fun r => fieldNum r field)).sum := by
  rw [sumFieldM] at h
  suffices hgen : ∀ (l : List PyVal) (acc : Rat) (q : Rat),
      exFoldl (fun acc r => do
        let v ← pyGet? r field (vInt 0)
        match v.numVal? with
        | some x => pure (acc + x)
        | none => Except.error PyErr.typeError) acc l = Except.ok q →
      q = acc + (l.map (fun r => fieldNum r field)).sum by
    have := hgen valid 0 q h
    simpa using this
  intro l
  induction l with
  | nil =>
    intro acc q h0
    simp only [exFoldl] at h0
    cases h0
    simp
  | cons r t ih =>
    intro acc q h0
    simp only [exFoldl] at h0
    cases hget : pyGet? r field (vInt 0) with
    | error e => rw [hget] at h0; simp [bindE_error] at h0
    | ok v =>
      rw [hget] at h0
      simp only [bindE_ok] at h0
      rcases ho : v.numVal? with _ | x
      · rw [ho] at h0
        simp at h0
      · rw [ho] at h0
        simp only [pure, Except.pure] at h0
        have hv : v = r.pyLookupD field (vInt 0) := by
          by_cases hdr : r.isDictB = true
          · simp [pyGet?, hdr] at hget
            exact hget.symm
          · simp [pyGet?, hdr] at hget
        have hx : x = fieldNum r field := by
          rw [fieldNum, ← hv, ho]
          rfl
        have hrec := ih (acc + x) q h0
        rw [hrec, hx]
        simp only [List.map_cons, List.sum_cons]
        ring

/-- Total counterpart of one guest-detail read. -/
def guestNum (r : PyVal) (field : String) : Rat :=
  (((r.pyLookupD "guest" vNone).pyLookupD "details" vNone).pyLookupD field
    (vInt 0)).numVal?.getD 0

theorem guestSumM_ok {valid : List PyVal} {field : String}
    (h : ∀ r ∈ valid, r.isDictB = true ∧ guestStructOkB r = true)
    (hf : field = "adults" ∨ field = "children" ∨ field = "infants" ∨ field = "pets") :
    guestSumM valid field = Except.ok ((valid.map (fun r => guestNum r field)).sum) := by
  rw [guestSumM]
  have hfold := exFoldl_ok (ε := PyErr) (f := fun acc r => do
      let g ← pySub r "guest"
      let d ← pySub g "details"
      let v ← pyGet? d field (vInt 0)
      match v.numVal? with
      | some q => pure (acc + q)
      | none => Except.error PyErr.typeError)
    (g := fun acc r => acc + guestNum r field) (l := valid) ?_ 0
  · rw [hfold, foldl_add_eq_sum]
    norm_num
  · intro b r hr
    obtain ⟨hdr, hgs⟩ := h r hr
    rw [guestStructOkB] at hgs
    cases hlg : r.pyLookup "guest" with
    | none => rw [hlg] at hgs; cases hgs
    | some g =>
      rw [hlg] at hgs
      simp only [Bool.and_eq_true] at hgs
      obtain ⟨hgd, hrest⟩ := hgs
      cases hld : g.pyLookup "details" with
      | none => rw [hld] at hrest; cases hrest
      | some d =>
        rw [hld] at hrest
        simp only [Bool.and_eq_true] at hrest
        obtain ⟨⟨⟨⟨hdd, ha⟩, hc⟩, hi⟩, hp⟩ := hrest
        have hnum : numFieldOkB d field = true := by
          rcases hf with hf | hf | hf | hf <;> subst hf <;> assumption
        have e1 : pySub r "guest" = Except.ok g := by
          simp [pySub, hdr, hlg]
        have e2 : pySub g "details" = Except.ok d := by
          simp [pySub, hgd, hld]
        simp only [e1, e2, bindE_ok, pyGet?, hdd, if_true]
        rcases ho : (d.pyLookupD field (vInt 0)).numVal? with _ | q
        · exfalso
          simp [numFieldOkB, ho] at hnum
        · have hq : guestNum r field = q := by
            rw [guestNum]
            have hg' : r.pyLookupD "guest" vNone = g := by simp [pyLookupD, hlg]
            have hd' : g.pyLookupD "details" vNone = d := by simp [pyLookupD, hld]
            rw [hg', hd', ho]
            rfl
          rw [hq]
          rfl

theorem guestSumsM_ok {valid : List PyVal}
    (h : ∀ r ∈ valid, r.isDictB = true ∧ guestStructOkB r = true) :
    guestSumsM valid = Except.ok
      ⟨(valid.map (fun r => guestNum r "adults")).sum,
       (valid.map (fun r => guestNum r "children")).sum,
       (valid.map (fun r => guestNum r "infants")).sum,
       (valid.map (fun r => guestNum r "pets")).sum⟩ := by
  rw [guestSumsM]
  rw [guestSumM_ok h (by simp), guestSumM_ok h (by simp), guestSumM_ok h (by simp),
    guestSumM_ok h (by simp)]
  rfl

theorem propCountM_ok {valid : List PyVal} (hd : ∀ r ∈ valid, r.isDictB = true) :
    propCountM valid = Except.ok (propCountOf valid) := by
  rw [propCountM, propCountOf]
  exact exFoldl_ok (fun acc r hr => by
    simp [pyGet?, hd r hr, bindE_ok, propKey]) []

theorem propEarnM_ok {valid : List PyVal}
    (h : ∀ r ∈ valid, r.isDictB = true ∧ numFieldOkB r "earnings" = true) :
    propEarnM valid = Except.ok (propEarnOf valid) := by
  rw [propEarnM, propEarnOf]
  refine exFoldl_ok ?_ []
  intro acc r hr
  obtain ⟨hdr, hnr⟩ := h r hr
  simp only [pyGet?, hdr, if_true, bindE_ok]
  rcases ho : (r.pyLookupD "earnings" (vInt 0)).numVal? with _ | q
  · exfalso
    simp [numFieldOkB, ho] at hnr
  · simp only [propKey, fieldNum, ho, Option.getD_some]
    rfl

theorem propCountM_inv {valid : List PyVal} {pc : List (PyVal × Nat)}
    (h : propCountM valid = Except.ok pc) : pc = propCountOf valid := by
  rw [propCountM] at h
  rw [propCountOf]
  suffices hgen : ∀ (l : List PyVal) (acc : List (PyVal × Nat)) pc,
      exFoldl (fun acc r => do
        let name ← pyGet? r "property_name" (vStr "Unknown")
        pure (bump acc name)) acc l = Except.ok pc →
      pc = l.foldl (fun acc r => bump acc (propKey r)) acc from hgen valid [] pc h
  intro l
  induction l with
  | nil =>
    intro acc pc h0
    simp only [exFoldl] at h0
    cases h0
    rfl
  | cons r t ih =>
    intro acc pc h0
    simp only [exFoldl] at h0
    cases hget : pyGet? r "property_name" (vStr "Unknown") with
    | error e => rw [hget] at h0; simp [bindE_error] at h0
    | ok name =>
      rw [hget] at h0
      simp only [bindE_ok, pure, Except.pure] at h0
      have hname : name = propKey r := by
        by_cases hdr : r.isDictB = true
        · simp [pyGet?, hdr] at hget
          rw [propKey, ← hget]
        · simp [pyGet?, hdr] at hget
      rw [List.foldl_cons, ← hname]
      exact ih (bump acc name) pc h0

theorem propEarnM_inv {valid : List PyVal} {pe : List (PyVal × Rat)}
    (h : propEarnM valid = Except.ok pe) : pe = propEarnOf valid := by
  rw [propEarnM] at h
  rw [propEarnOf]
  suffices hgen : ∀ (l : List PyVal) (acc : List (PyVal × Rat)) pe,
      exFoldl (fun acc r => do
        let name ← pyGet? r "property_name" (vStr "Unknown")
        let e ← pyGet? r "earnings" (vInt 0)
        match e.numVal? with
        | some q => pure (bumpAdd acc name q)
        | none => Except.error PyErr.typeError) acc l = Except.ok pe →
      pe = l.foldl (fun acc r => bumpAdd acc (propKey r) (fieldNum r "earnings")) acc from
    hgen valid [] pe h
  intro l
  induction l with
  | nil =>
    intro acc pe h0
    simp only [exFoldl] at h0
    cases h0
    rfl
  | cons r t ih =>
    intro acc pe h0
    simp only [exFoldl] at h0
    cases hget : pyGet? r "property_name" (vStr "Unknown") with
    | error e => rw [hget] at h0; simp [bindE_error] at h0
    | ok name =>
      rw [hget] at h0
      simp only [bindE_ok] at h0
      cases hget2 : pyGet? r "earnings" (vInt 0) with
      | error e => rw [hget2] at h0; simp [bindE_error] at h0
      | ok v =>
        rw [hget2] at h0
        simp only [bindE_ok] at h0
        rcases ho : v.numVal? with _ | x
        · rw [ho] at h0
          simp at h0
        · rw [ho] at h0
          simp only [pure, Except.pure] at h0
          have hdr : r.isDictB = true := by
            by_contra hc
            simp [pyGet?, hc] at hget
          have hname : name = propKey r := by
            simp [pyGet?, hdr] at hget
            rw [propKey, ← hget]
          have hx : x = fieldNum r "earnings" := by
            simp [pyGet?, hdr] at hget2
            rw [fieldNum, hget2, ho]
            rfl
          rw [List.foldl_cons, ← hname, ← hx]
          exact ih (bumpAdd acc name x) pe h0

theorem bump_keys (acc : List (PyVal × Nat)) (k : PyVal) :
    (bump acc k).map Prod.fst =
      if k ∈ acc.map Prod.fst then acc.map Prod.fst else acc.map Prod.fst ++ [k] := by
  induction acc with
  | nil => simp [bump]
  | cons kv t ih =>
    by_cases hk : kv.1 = k
    · cases kv
      simp_all [bump]
    · cases kv with
      | mk k' n =>
        simp only at hk
        simp only [bump, if_neg hk, List.map_cons, ih]
        have : ¬ (k = k') := fun hh => hk hh.symm
        by_cases hmem : k ∈ t.map Prod.fst <;> simp [hmem, this]

theorem bumpAdd_keys (acc : List (PyVal × Rat)) (k : PyVal) (q : Rat) :
    (bumpAdd acc k q).map Prod.fst =
      if k ∈ acc.map Prod.fst then acc.map Prod.fst else acc.map Prod.fst ++ [k] := by
  induction acc with
  | nil => simp [bumpAdd]
  | cons kv t ih =>
    by_cases hk : kv.1 = k
    · cases kv
      simp_all [bumpAdd]
    · cases kv with
      | mk k' v =>
        simp only at hk
        simp only [bumpAdd, if_neg hk, List.map_cons, ih]
        have : ¬ (k = k') := fun hh => hk hh.symm
        by_cases hmem : k ∈ t.map Prod.fst <;> simp [hmem, this]

theorem prop_folds_keys (valid : List PyVal) :
    (propEarnOf valid).map Prod.fst = (propCountOf valid).map Prod.fst := by
  rw [propEarnOf, propCountOf]
  suffices hgen : ∀ (l : List PyVal) (acc1 : List (PyVal × Rat)) (acc2 : List (PyVal × Nat)),
      acc1.map Prod.fst = acc2.map Prod.fst →
      (l.foldl (fun acc r => bumpAdd acc (propKey r) (fieldNum r "earnings")) acc1).map Prod.fst =
        (l.foldl (fun acc r => bump acc (propKey r)) acc2).map Prod.fst from
    hgen valid [] [] rfl
  intro l
  induction l with
  | nil => intro acc1 acc2 h; simpa using h
  | cons r t ih =>
    intro acc1 acc2 h
    simp only [List.foldl_cons]
    refine ih _ _ ?_
    rw [bumpAdd_keys, bump_keys, h]

theorem lookupN_isSome {acc : List (PyVal × Nat)} {k : PyVal} :
    (lookupN acc k).isSome = true ↔ k ∈ acc.map Prod.fst := by
  induction acc with
  | nil => simp [lookupN]
  | cons kv t ih =>
    cases kv with
    | mk k' n =>
      by_cases hk : k' = k
      · subst hk
        simp [lookupN]
      · simp only [lookupN, if_neg hk, List.map_cons, List.mem_cons, ih]
        have : ¬ (k = k') := fun hh => hk hh.symm
        simp [this]

theorem bumpAdd_ne_nil (acc : List (PyVal × Rat)) (k : PyVal) (q : Rat) :
    bumpAdd acc k q ≠ [] := by
  cases acc with
  | nil => simp [bumpAdd]
  | cons kv t =>
    cases kv
    rw [bumpAdd]
    split <;> simp

theorem propEarnOf_ne_nil {valid : List PyVal} (h : valid ≠ []) : propEarnOf valid ≠ [] := by
  rw [propEarnOf]
  suffices hgen : ∀ (l : List PyVal) (acc : List (PyVal × Rat)), acc ≠ [] ∨ l ≠ [] →
      l.foldl (fun acc r => bumpAdd acc (propKey r) (fieldNum r "earnings")) acc ≠ [] from
    hgen valid [] (Or.inr h)
  intro l
  induction l with
  | nil =>
    intro acc hor
    rcases hor with hor | hor
    · simpa using hor
    · exact absurd rfl hor
  | cons r t ih =>
    intro acc _
    simp only [List.foldl_cons]
    exact ih _ (Or.inl (bumpAdd_ne_nil _ _ _))

theorem mkEarnEntriesM_ok {pe : List (PyVal × Rat)} {T : Rat} {pc : List (PyVal × Nat)}
    (hT : T ≠ 0) (hk : ∀ kv ∈ pe, (lookupN pc kv.1).isSome = true) :
    mkEarnEntriesM pe T pc = Except.ok (mkEarnEntriesT pe T pc) := by
  rw [mkEarnEntriesM, mkEarnEntriesT]
  refine exMap_ok ?_
  intro kv hkv
  cases hlk : lookupN pc kv.1 with
  | none =>
    exfalso
    have hsk := hk kv hkv
    rw [hlk] at hsk
    simp at hsk
  | some c =>
    simp only [if_neg hT, hlk, Option.getD_some]
    rfl

theorem mkEarnEntriesM_inv {pe : List (PyVal × Rat)} {T : Rat} {pc : List (PyVal × Nat)}
    {E : List (PyVal × Rat × Rat × Rat)} (h : mkEarnEntriesM pe T pc = Except.ok E) :
    (pe = [] ∨ T ≠ 0) ∧ E = mkEarnEntriesT pe T pc := by
  rw [mkEarnEntriesM] at h
  rw [mkEarnEntriesT]
  induction pe generalizing E with
  | nil =>
    simp only [exMap] at h
    cases h
    exact ⟨Or.inl rfl, rfl⟩
  | cons kv t ih =>
    simp only [exMap] at h
    by_cases hT : T = 0
    · rw [if_pos hT] at h
      simp at h
    · rw [if_neg hT] at h
      cases hlk : lookupN pc kv.1 with
      | none => rw [hlk] at h; simp at h
      | some c =>
        rw [hlk] at h
        simp only [pure, Except.pure] at h
        split at h
        · cases h
        · rename_i Et heq
          cases h
          obtain ⟨_, hEt⟩ := ih heq
          refine ⟨Or.inr hT, ?_⟩
          simp only [List.map_cons, hlk, Option.getD_some]
          rw [hEt]

theorem sortDescRat_ne_nil {pe : List (PyVal × Rat)} (h : pe ≠ []) : sortDescRat pe ≠ [] := by
  intro hc
  have hlen := (stableSort_perm (fun a b => decide (b.2 ≤ a.2)) pe).length_eq
  rw [sortDescRat] at hc
  rw [hc] at hlen
  simp only [List.length_nil] at hlen
  exact h (List.length_eq_zero.mp hlen.symm)

theorem calc_ok_facts {rs : List PyVal} {s : Summary}
    (h : calculate_summary rs false = Except.ok s) :
    (∀ r ∈ rs, r.isDictB = true) ∧
    s.status_count = sortDescNat (histOf rs) ∧
    s.reservations_sum = (validOf rs).length ∧
    s.earnings_sum = earningsTotal rs ∧
    (validOf rs ≠ [] →
      earningsTotal rs ≠ 0 ∧
      s.reservations_per_property =
        mkCountEntries (sortDescNat (propCountOf (validOf rs))) (validOf rs).length ∧
      s.earnings_per_property =
        mkEarnEntriesT (sortDescRat (propEarnOf (validOf rs))) (earningsTotal rs)
          (propCountOf (validOf rs))) := by
  rw [calculate_summary] at h
  cases hv : validM rs false with
  | error e => rw [hv] at h; simp [bindE_error] at h
  | ok valid =>
    rw [hv] at h
    obtain ⟨hd, hveq⟩ := validM_ok_inv hv
    subst hveq
    simp only [bindE_ok] at h
    cases hh : histM rs with
    | error e => rw [hh] at h; simp [bindE_error] at h
    | ok sc =>
      rw [hh] at h
      have hsc : sc = histOf rs := by
        have hmk := histM_ok hd
        rw [hh] at hmk
        exact Except.ok.inj hmk
      subst hsc
      simp only [bindE_ok] at h
      by_cases hvz : validOf rs = []
      · rw [if_pos hvz] at h
        simp only [pure, Except.pure] at h
        cases h
        refine ⟨hd, rfl, ?_, ?_, fun hcon => absurd hvz hcon⟩
        · simp [zeroSummary, hvz]
        · simp [zeroSummary, earningsTotal, hvz]
      · rw [if_neg hvz] at h
        cases hT : sumFieldM (validOf rs) "earnings" with
        | error e => rw [hT] at h; simp [bindE_error] at h
        | ok T =>
          rw [hT] at h
          simp only [bindE_ok] at h
          have hTeq : T = earningsTotal rs := by
            rw [sumFieldM_inv hT, earningsTotal]
          cases hN : sumFieldM (validOf rs) "nights" with
          | error e => rw [hN] at h; simp [bindE_error] at h
          | ok N =>
            rw [hN] at h
            simp only [bindE_ok] at h
            cases hG : guestSumsM (validOf rs) with
            | error e => rw [hG] at h; simp [bindE_error] at h
            | ok gd =>
              rw [hG] at h
              simp only [bindE_ok] at h
              cases hPC : propCountM (validOf rs) with
              | error e => rw [hPC] at h; simp [bindE_error] at h
              | ok pc =>
                rw [hPC] at h
                simp only [bindE_ok] at h
                have hpc : pc = propCountOf (validOf rs) := propCountM_inv hPC
                cases hPE : propEarnM (validOf rs) with
                | error e => rw [hPE] at h; simp [bindE_error] at h
                | ok pe =>
                  rw [hPE] at h
                  simp only [bindE_ok] at h
                  have hpe : pe = propEarnOf (validOf rs) := propEarnM_inv hPE
                  cases hE : mkEarnEntriesM (sortDescRat pe) T pc with
                  | error e => rw [hE] at h; simp [bindE_error] at h
                  | ok E =>
                    rw [hE] at h
                    simp only [bindE_ok, pure, Except.pure] at h
                    cases h
                    obtain ⟨hor, hEeq⟩ := mkEarnEntriesM_inv hE
                    have hTne : T ≠ 0 := by
                      rcases hor with hor | hor
                      · exfalso
                        exact sortDescRat_ne_nil (hpe ▸ propEarnOf_ne_nil hvz) hor
                      · exact hor
                    refine ⟨hd, rfl, rfl, hTeq, fun _ => ⟨hTeq ▸ hTne, ?_, ?_⟩⟩
                    · show mkCountEntries (sortDescNat pc) (validOf rs).length = _
                      rw [hpc]
                    · show E = _
                      rw [hEeq, hpe, hpc, hTeq]

/-! ### Claim C1 -/

/-- Counterexample to C1 as stated: a batch with a non-empty valid
subset whose total earnings is zero (one fully-normalized record with
earnings `0.0`) makes `calculate_summary` raise `ZeroDivisionError` at
the per-property earnings percentage (line 167), so the per-property
computations do NOT complete without error for every non-empty valid
subset. -/
theorem claim_C1_counterexample :
    calculate_summary [sampleRec "A" "ok" 0] false = Except.error PyErr.zeroDivError := by
  decide

/-- Claim C1 as amended: on a batch of dict records, an empty valid
subset yields the zero-valued report (zero sums, empty per-property
maps, histogram retained) without failing; and when the valid subset is
non-empty, the records are structurally complete and the total earnings
is non-zero, the whole summary (including every percentage and average)
completes without error. -/
theorem claim_C1_division_guard (rs : List PyVal) (hd : ∀ r ∈ rs, r.isDictB = true) :
    (validOf rs = [] → calculate_summary rs false = Except.ok (zeroSummary (histOf rs))) ∧
    (validOf rs ≠ [] → (∀ r ∈ rs, structOkB r = true) → earningsTotal rs ≠ 0 →
      exOk (calculate_summary rs false) = true) := by
  constructor
  · intro hvz
    rw [calculate_summary, validM_ok hd]
    simp only [bindE_ok]
    rw [histM_ok hd]
    simp only [bindE_ok]
    rw [if_pos hvz]
    rfl
  · intro hvz hstruct hT
    have hsub : ∀ r ∈ validOf rs, r ∈ rs := fun r hr => List.mem_of_mem_filter hr
    have hde : ∀ r ∈ validOf rs, r.isDictB = true ∧ numFieldOkB r "earnings" = true := by
      intro r hr
      have hs := hstruct r (hsub r hr)
      simp only [structOkB, Bool.and_eq_true] at hs
      exact ⟨hs.1.1.1, hs.1.1.2⟩
    have hdn : ∀ r ∈ validOf rs, r.isDictB = true ∧ numFieldOkB r "nights" = true := by
      intro r hr
      have hs := hstruct r (hsub r hr)
      simp only [structOkB, Bool.and_eq_true] at hs
      exact ⟨hs.1.1.1, hs.1.2⟩
    have hdg : ∀ r ∈ validOf rs, r.isDictB = true ∧ guestStructOkB r = true := by
      intro r hr
      have hs := hstruct r (hsub r hr)
      simp only [structOkB, Bool.and_eq_true] at hs
      exact ⟨hs.1.1.1, hs.2⟩
    have hdv : ∀ r ∈ validOf rs, r.isDictB = true := fun r hr => (hde r hr).1
    rw [calculate_summary, validM_ok hd]
    simp only [bindE_ok]
    rw [histM_ok hd]
    simp only [bindE_ok]
    rw [if_neg hvz, sumFieldM_ok hde]
    simp only [bindE_ok]
    rw [sumFieldM_ok hdn]
    simp only [bindE_ok]
    rw [guestSumsM_ok hdg]
    simp only [bindE_ok]
    rw [propCountM_ok hdv]
    simp only [bindE_ok]
    rw [propEarnM_ok hde]
    simp only [bindE_ok]
    have hT2 : (List.map (fun r => fieldNum r "earnings") (validOf rs)).sum ≠ 0 := hT
    rw [mkEarnEntriesM_ok hT2 ?_]
    · simp only [bindE_ok]
      rfl
    · intro kv hkv
      refine lookupN_isSome.mpr ?_
      rw [← prop_folds_keys]
      refine List.mem_map_of_mem Prod.fst ?_
      rw [sortDescRat] at hkv
      exact mem_stableSort.mp hkv

/-- Witness for the amended C1: a batch whose only record is canceled
has an empty valid subset and yields the zero-valued report (the
histogram still counting the canceled record). -/
theorem claim_C1_witness :
    calculate_summary [sampleRec "A" "Cancelado pelo hóspede" 5] false =
      Except.ok (zeroSummary (histOf [sampleRec "A" "Cancelado pelo hóspede" 5])) := by
  exact (claim_C1_division_guard _ (by decide)).1 (by decide)

/-! ### Claim C4: histogram support lemmas -/

theorem lookupN_bump_self (acc : List (PyVal × Nat)) (k : PyVal) :
    lookupN (bump acc k) k = some ((lookupN acc k).getD 0 + 1) := by
  induction acc with
  | nil => simp [bump, lookupN]
  | cons kv t ih =>
    cases kv with
    | mk k' n =>
      by_cases hk : k' = k
      · subst hk
        simp [bump, lookupN]
      · simp [bump, lookupN, hk, ih]

theorem lookupN_bump_ne (acc : List (PyVal × Nat)) {j k : PyVal} (h : j ≠ k) :
    lookupN (bump acc j) k = lookupN acc k := by
  induction acc with
  | nil => simp [bump, lookupN, h]
  | cons kv t ih =>
    cases kv with
    | mk k' n =>
      by_cases hk : k' = j
      · subst hk
        simp [bump, lookupN, h]
      · simp [bump, lookupN, hk, ih]

theorem lookupN_histFold (rs : List PyVal) (acc : List (PyVal × Nat)) (k : PyVal) :
    lookupN (rs.foldl (fun a r => bump a (statusHistKey r)) acc) k =
      if rs.countP (fun r => decide (statusHistKey r = k)) = 0 then lookupN acc k
      else some ((lookupN acc k).getD 0
                  + rs.countP (fun r => decide (statusHistKey r = k))) := by
  induction rs generalizing acc with
  | nil => simp
  | cons r t ih =>
    simp only [List.foldl_cons, List.countP_cons]
    by_cases hr : statusHistKey r = k
    · have hb : bump acc (statusHistKey r) = bump acc k := by rw [hr]
      rw [hb, ih, lookupN_bump_self]
      by_cases h0 : t.countP (fun x => decide (statusHistKey x = k)) = 0
      · simp [hr, h0]
      · simp [hr, h0]
        omega
    · have hp : (decide (statusHistKey r = k)) = false := decide_eq_false hr
      rw [ih, lookupN_bump_ne _ hr, hp]
      simp

theorem histOf_lookup (rs : List PyVal) (k : PyVal) :
    lookupN (histOf rs) k =
      if rs.countP (fun r => decide (statusHistKey r = k)) = 0 then none
      else some (rs.countP (fun r => decide (statusHistKey r = k))) := by
  rw [histOf, lookupN_histFold]
  simp [lookupN]

theorem bump_keys_nodup {acc : List (PyVal × Nat)} (h : (acc.map Prod.fst).Nodup) (k : PyVal) :
    ((bump acc k).map Prod.fst).Nodup := by
  rw [bump_keys]
  split
  · exact h
  · rename_i hmem
    refine List.Nodup.append h (List.nodup_singleton k) ?_
    intro a ha hb
    simp only [List.mem_singleton] at hb
    subst hb
    exact hmem ha

theorem histOf_keys_nodup (rs : List PyVal) :
    ((histOf rs).map Prod.fst).Nodup := by
  rw [histOf]
  have hgen : ∀ acc : List (PyVal × Nat), (acc.map Prod.fst).Nodup →
      ((rs.foldl (fun a r => bump a (statusHistKey r)) acc).map Prod.fst).Nodup := by
    induction rs with
    | nil =>
      intro acc h
      simpa using h
    | cons r t ih =>
      intro acc h
      simp only [List.foldl_cons]
      exact ih _ (bump_keys_nodup h _)
  exact hgen [] (by simp)

theorem mem_iff_lookupN {l : List (PyVal × Nat)} (hnd : (l.map Prod.fst).Nodup)
    {k : PyVal} {n : Nat} : (k, n) ∈ l ↔ lookupN l k = some n := by
  induction l with
  | nil => simp [lookupN]
  | cons kv t ih =>
    cases kv with
    | mk k' m =>
      simp only [List.map_cons, List.nodup_cons] at hnd
      by_cases hk : k' = k
      · subst hk
        constructor
        · intro hm
          rcases List.mem_cons.mp hm with he | ht
          · rw [Prod.mk.injEq] at he
            simp [lookupN, he.2]
          · exact absurd (List.mem_map_of_mem Prod.fst ht) hnd.1
        · intro hl
          simp only [lookupN] at hl
          rw [List.mem_cons]
          left
          rw [if_true] at hl
          rw [Option.some.injEq] at hl
          rw [hl]
      · simp only [lookupN, if_neg hk]
        rw [← ih hnd.2, List.mem_cons]
        have hne : ¬ ((k, n) = (k', m)) := fun he => hk (congrArg Prod.fst he).symm
        simp [hne]

/-- Claim C4: when `calculate_summary` (with `include_canceled = False`)
succeeds, the status histogram of the report counts every record of the
whole input batch — an entry `(k, n)` is present exactly when `n ≥ 1`
records of the batch (cancellation-status ones included) carry status
key `k` — while `reservations_sum`, `earnings_sum` and the per-property
map are computed over the valid (post-cancellation-filter) subset only. -/
theorem claim_C4_histogram {rs : List PyVal} {s : Summary}
    (h : calculate_summary rs false = Except.ok s) :
    (∀ k n, (k, n) ∈ s.status_count ↔
      (rs.countP (fun r => decide (statusHistKey r = k)) = n ∧ 1 ≤ n)) ∧
    s.reservations_sum = (validOf rs).length ∧
    s.earnings_sum = earningsTotal rs ∧
    (validOf rs ≠ [] →
      s.reservations_per_property =
        mkCountEntries (sortDescNat (propCountOf (validOf rs))) (validOf rs).length) := by
  obtain ⟨hd, hsc, hrs, hes, hne⟩ := calc_ok_facts h
  refine ⟨?_, hrs, hes, fun hv => (hne hv).2.1⟩
  intro k n
  rw [hsc, sortDescNat, mem_stableSort, mem_iff_lookupN (histOf_keys_nodup rs), histOf_lookup]
  by_cases h0 : rs.countP (fun r => decide (statusHistKey r = k)) = 0
  · simp [h0]
    omega
  · simp [h0]
    omega

def claimC4batch : List PyVal :=
  [sampleRec "A" "ok" 10, sampleRec "B" "Cancelado pelo hóspede" 5]

def claimC4sum : Summary :=
  match calculate_summary claimC4batch false with
  | Except.ok s => s
  | Except.error _ => zeroSummary []

/-- Witness for C4 at a concrete two-record batch, one record canceled:
the histogram has an entry for the cancellation status, yet the
reservation count and earnings sum cover only the non-canceled record. -/
theorem claim_C4_witness :
    (vStr "Cancelado pelo hóspede", 1) ∈ claimC4sum.status_count ∧
    (vStr "ok", 1) ∈ claimC4sum.status_count ∧
    claimC4sum.reservations_sum = 1 ∧
    claimC4sum.earnings_sum = 10 := by
  have hc := @claim_C4_histogram claimC4batch claimC4sum (by decide)
  refine ⟨(hc.1 _ _).mpr (by decide), (hc.1 _ _).mpr (by decide), ?_, ?_⟩
  · rw [hc.2.1]
    decide
  · rw [hc.2.2.1]
    decide

/-! ### Claim C5: rounding and percentage-sum lemmas -/

theorem round2_err (q : Rat) : |round2 q - q| ≤ 1 / 200 := by
  have h := abs_sub_round (q * 100)
  rw [abs_le] at h ⊢
  rw [round2]
  constructor <;> [linarith [h.1, h.2]; linarith [h.1, h.2]]

theorem sum_map_err {α : Type} (l : List α) (f g : α → Rat) (c : Rat)
    (h : ∀ x ∈ l, |f x - g x| ≤ c) :
    |(l.map f).sum - (l.map g).sum| ≤ (l.length : Rat) * c := by
  induction l with
  | nil => simp
  | cons a t ih =>
    simp only [List.map_cons, List.sum_cons, List.length_cons]
    have h1 := h a (List.mem_cons_self a t)
    have h2 := ih (fun x hx => h x (List.mem_cons_of_mem a hx))
    have h3 : f a + (t.map f).sum - (g a + (t.map g).sum)
        = (f a - g a) + ((t.map f).sum - (t.map g).sum) := by ring
    rw [h3]
    calc |(f a - g a) + ((t.map f).sum - (t.map g).sum)|
        ≤ |f a - g a| + |(t.map f).sum - (t.map g).sum| := abs_add _ _
      _ ≤ c + (t.length : Rat) * c := add_le_add h1 h2
      _ = ((t.length + 1 : Nat) : Rat) * c := by push_cast; ring

theorem sum_div_mul {α : Type} (l : List α) (v : α → Rat) (T : Rat) :
    (l.map (fun x => v x / T * 100)).sum = (l.map v).sum / T * 100 := by
  induction l with
  | nil => simp
  | cons a t ih =>
    simp only [List.map_cons, List.sum_cons]
    rw [ih]
    ring

theorem sum_div_mul_nat (l : List (PyVal × Nat)) (T : Rat) :
    (l.map (fun kv => (kv.2 : Rat) / T * 100)).sum
      = (l.map (fun kv => ((kv.2 : Nat) : Rat))).sum / T * 100 := by
  induction l with
  | nil => simp
  | cons a t ih =>
    simp only [List.map_cons, List.sum_cons]
    rw [ih]
    ring

theorem bumpAdd_sum (acc : List (PyVal × Rat)) (k : PyVal) (q : Rat) :
    ((bumpAdd acc k q).map Prod.snd).sum = (acc.map Prod.snd).sum + q := by
  induction acc with
  | nil => simp [bumpAdd]
  | cons kv t ih =>
    cases kv with
    | mk k' v =>
      by_cases hk : k' = k
      · subst hk
        simp [bumpAdd]
        ring
      · simp [bumpAdd, hk, ih]
        ring

theorem propEarnOf_sum (valid : List PyVal) :
    ((propEarnOf valid).map Prod.snd).sum
      = (valid.map (fun r => fieldNum r "earnings")).sum := by
  rw [propEarnOf]
  have hgen : ∀ acc : List (PyVal × Rat),
      ((valid.foldl (fun a r => bumpAdd a (propKey r) (fieldNum r "earnings")) acc).map
          Prod.snd).sum
        = (acc.map Prod.snd).sum + (valid.map (fun r => fieldNum r "earnings")).sum := by
    induction valid with
    | nil =>
      intro acc
      simp
    | cons r t ih =>
      intro acc
      simp only [List.foldl_cons, List.map_cons, List.sum_cons]
      rw [ih, bumpAdd_sum]
      ring
  simpa using hgen []

theorem bump_sum (acc : List (PyVal × Nat)) (k : PyVal) :
    ((bump acc k).map Prod.snd).sum = (acc.map Prod.snd).sum + 1 := by
  induction acc with
  | nil => simp [bump]
  | cons kv t ih =>
    cases kv with
    | mk k' n =>
      by_cases hk : k' = k
      · subst hk
        simp [bump]
        omega
      · simp [bump, hk, ih]
        omega

theorem propCountOf_sum (valid : List PyVal) :
    ((propCountOf valid).map Prod.snd).sum = valid.length := by
  rw [propCountOf]
  have hgen : ∀ acc : List (PyVal × Nat),
      ((valid.foldl (fun a r => bump a (propKey r)) acc).map Prod.snd).sum
        = (acc.map Prod.snd).sum + valid.length := by
    induction valid with
    | nil =>
      intro acc
      simp
    | cons r t ih =>
      intro acc
      simp only [List.foldl_cons, List.length_cons]
      rw [ih, bump_sum]
      omega
  simpa using hgen []

theorem sum_cast_snd (l : List (PyVal × Nat)) :
    (l.map (fun kv => ((kv.2 : Nat) : Rat))).sum = (((l.map Prod.snd).sum : Nat) : Rat) := by
  induction l with
  | nil => simp
  | cons a t ih =>
    simp only [List.map_cons, List.sum_cons, ih]
    push_cast
    ring

/-- Claim C5: when `calculate_summary` succeeds on a batch with a
non-empty valid subset (so the total earnings is also non-zero, else
the code raises), the per-property earnings percentages sum to 100 up
to the two-decimal rounding tolerance of 1/200 per property, and
likewise the per-property reservation-count percentages. -/
theorem claim_C5_percentages {rs : List PyVal} {s : Summary}
    (h : calculate_summary rs false = Except.ok s) (hv : validOf rs ≠ []) :
    |(s.earnings_per_property.map (fun e => e.2.2.1)).sum - 100|
        ≤ (s.earnings_per_property.length : Rat) * (1 / 200) ∧
    |(s.reservations_per_property.map (fun e => e.2.2)).sum - 100|
        ≤ (s.reservations_per_property.length : Rat) * (1 / 200) := by
  obtain ⟨hd, hsc, hrs, hes, hne⟩ := calc_ok_facts h
  obtain ⟨hT, hcnt, hearn⟩ := hne hv
  constructor
  · have hproj : s.earnings_per_property.map (fun e => e.2.2.1)
        = (sortDescRat (propEarnOf (validOf rs))).map
            (fun kv => round2 (kv.2 / earningsTotal rs * 100)) := by
      rw [hearn, mkEarnEntriesT, List.map_map]
      rfl
    have hlen : s.earnings_per_property.length
        = (sortDescRat (propEarnOf (validOf rs))).length := by
      rw [hearn, mkEarnEntriesT, List.length_map]
    have hsum2 : ((sortDescRat (propEarnOf (validOf rs))).map Prod.snd).sum
        = earningsTotal rs := by
      have hperm :=
        (stableSort_perm (fun a b : PyVal × Rat => decide (b.2 ≤ a.2))
          (propEarnOf (validOf rs))).map Prod.snd
      rw [sortDescRat, hperm.sum_eq, propEarnOf_sum]
      rfl
    have hbound := sum_map_err (sortDescRat (propEarnOf (validOf rs)))
        (fun kv => round2 (kv.2 / earningsTotal rs * 100))
        (fun kv => kv.2 / earningsTotal rs * 100) (1 / 200)
        (fun x _ => round2_err _)
    rw [sum_div_mul _ Prod.snd, hsum2, div_self hT, one_mul] at hbound
    rw [hproj, hlen]
    exact hbound
  · have hproj : s.reservations_per_property.map (fun e => e.2.2)
        = (sortDescNat (propCountOf (validOf rs))).map
            (fun kv => round2 ((kv.2 : Rat) / ((validOf rs).length : Rat) * 100)) := by
      rw [hcnt, mkCountEntries, List.map_map]
      rfl
    have hlen : s.reservations_per_property.length
        = (sortDescNat (propCountOf (validOf rs))).length := by
      rw [hcnt, mkCountEntries, List.length_map]
    have hsum2 : ((sortDescNat (propCountOf (validOf rs))).map
          (fun kv => ((kv.2 : Nat) : Rat))).sum
        = (((validOf rs).length : Nat) : Rat) := by
      have hperm :=
        (stableSort_perm (fun a b : PyVal × Nat => decide (b.2 ≤ a.2))
          (propCountOf (validOf rs))).map (fun kv => ((kv.2 : Nat) : Rat))
      rw [sortDescNat, hperm.sum_eq, sum_cast_snd, propCountOf_sum]
    have hn0 : (((validOf rs).length : Nat) : Rat) ≠ 0 := by
      have hl : (validOf rs).length ≠ 0 := by
        intro hz
        exact hv (List.length_eq_zero.mp hz)
      exact_mod_cast hl
    have hbound := sum_map_err (sortDescNat (propCountOf (validOf rs)))
        (fun kv => round2 ((kv.2 : Rat) / ((validOf rs).length : Rat) * 100))
        (fun kv => (kv.2 : Rat) / ((validOf rs).length : Rat) * 100) (1 / 200)
        (fun x _ => round2_err _)
    rw [sum_div_mul_nat, hsum2, div_self hn0, one_mul] at hbound
    rw [hproj, hlen]
    exact hbound

def claimC5batch : List PyVal := [sampleRec "A" "ok" 10, sampleRec "B" "ok" 30]

def claimC5sum : Summary :=
  match calculate_summary claimC5batch false with
  | Except.ok s => s
  | Except.error _ => zeroSummary []

/-- Witness for C5 at a concrete batch of two properties with earnings
10 and 30: both percentage columns sum to 100 within tolerance. -/
theorem claim_C5_witness :
    |(claimC5sum.earnings_per_property.map (fun e => e.2.2.1)).sum - 100|
        ≤ (claimC5sum.earnings_per_property.length : Rat) * (1 / 200) ∧
    |(claimC5sum.reservations_per_property.map (fun e => e.2.2)).sum - 100|
        ≤ (claimC5sum.reservations_per_property.length : Rat) * (1 / 200) :=
  @claim_C5_percentages claimC5batch claimC5sum (by decide) (by decide)

/-! ### Claim C2 -/

/-- The record the `try` body of `process_reservation` builds (lines
72-91), written with the defaulted lookups of the source dict literal. -/
def normValue (raw : PyVal) : PyVal :=
  PyVal.ofDict
    [("status", raw.pyLookupD "user_facing_status_localized" (vStr "")),
     ("confirmation_code", raw.pyLookupD "confirmation_code" (vStr "")),
     ("property_name", raw.pyLookupD "listing_name" (vStr "")),
     ("booking_date", raw.pyLookupD "booked_date" (vStr "")),
     ("check_in", raw.pyLookupD "start_date" (vStr "")),
     ("check_out", raw.pyLookupD "end_date" (vStr "")),
     ("nights", raw.pyLookupD "nights" (vStr "")),
     ("earnings", vFloat (format_earnings (raw.pyLookupD "earnings" (vStr "0.0")))),
     ("guest", PyVal.ofDict
       [("name", (raw.pyLookupD "guest_user" vDictNil).pyLookupD "full_name" (vStr "")),
        ("phone", (raw.pyLookupD "guest_user" vDictNil).pyLookupD "phone" (vStr "")),
        ("location", (raw.pyLookupD "guest_user" vDictNil).pyLookupD "location" (vStr "")),
        ("details", PyVal.ofDict
          [("adults",
            (raw.pyLookupD "guest_details" vDictNil).pyLookupD "number_of_adults" (vInt 0)),
           ("children",
            (raw.pyLookupD "guest_details" vDictNil).pyLookupD "number_of_children" (vInt 0)),
           ("infants",
            (raw.pyLookupD "guest_details" vDictNil).pyLookupD "number_of_infants" (vInt 0)),
           ("pets",
            (raw.pyLookupD "guest_details" vDictNil).pyLookupD "number_of_pets" (vInt 0))])])]

theorem process_reservationE_ok {raw : PyVal} (hn : normOkB raw = true) :
    process_reservationE raw = Except.ok (normValue raw) := by
  simp only [normOkB, Bool.and_eq_true] at hn
  obtain ⟨⟨hdr, hgu⟩, hgd⟩ := hn
  have hget : ∀ k d, pyGet? raw k d = Except.ok (raw.pyLookupD k d) := by
    intro k d
    rw [pyGet?, if_pos hdr]
  have hgetu : ∀ k d, pyGet? (raw.pyLookupD "guest_user" vDictNil) k d
      = Except.ok ((raw.pyLookupD "guest_user" vDictNil).pyLookupD k d) := by
    intro k d
    rw [pyGet?, if_pos hgu]
  have hgetd : ∀ k d, pyGet? (raw.pyLookupD "guest_details" vDictNil) k d
      = Except.ok ((raw.pyLookupD "guest_details" vDictNil).pyLookupD k d) := by
    intro k d
    rw [pyGet?, if_pos hgd]
  rw [process_reservationE]
  simp only [hget, hgetu, hgetd, bindE_ok]
  rfl

theorem process_reservation_placeholder {raw : PyVal} (hn : normOkB raw = false) :
    process_reservation raw = vDictNil := by
  by_cases hdr : raw.isDictB = true
  · have hget : ∀ k d, pyGet? raw k d = Except.ok (raw.pyLookupD k d) := by
      intro k d
      rw [pyGet?, if_pos hdr]
    by_cases hgu : (raw.pyLookupD "guest_user" vDictNil).isDictB = true
    · by_cases hgd : (raw.pyLookupD "guest_details" vDictNil).isDictB = true
      · exfalso
        rw [normOkB, hdr, hgu, hgd] at hn
        simp at hn
      · have hgetu : ∀ k d, pyGet? (raw.pyLookupD "guest_user" vDictNil) k d
            = Except.ok ((raw.pyLookupD "guest_user" vDictNil).pyLookupD k d) := by
          intro k d
          rw [pyGet?, if_pos hgu]
        have hbad : ∀ k d, pyGet? (raw.pyLookupD "guest_details" vDictNil) k d
            = Except.error PyErr.attrError := by
          intro k d
          rw [pyGet?, if_neg hgd]
        have hE : process_reservationE raw = Except.error PyErr.attrError := by
          rw [process_reservationE]
          simp only [hget, hgetu, hbad, bindE_ok, bindE_error]
        rw [process_reservation, hE]
    · have hbad : ∀ k d, pyGet? (raw.pyLookupD "guest_user" vDictNil) k d
          = Except.error PyErr.attrError := by
        intro k d
        rw [pyGet?, if_neg hgu]
      have hE : process_reservationE raw = Except.error PyErr.attrError := by
        rw [process_reservationE]
        simp only [hget, hbad, bindE_ok, bindE_error]
      rw [process_reservation, hE]
  · have hbad : ∀ k d, pyGet? raw k d = Except.error PyErr.attrError := by
      intro k d
      rw [pyGet?, if_neg hdr]
    have hE : process_reservationE raw = Except.error PyErr.attrError := by
      rw [process_reservationE]
      simp only [hbad, bindE_error]
    rw [process_reservation, hE]

/-- Counterexample to C2 as stated: on a record without a `nights`
field, the normalizer defaults `nights` to the empty string `""`
(line 78 uses `reservation.get("nights", "")`), not to zero; the claim
that every numeric field defaults to zero is false for `nights`. -/
theorem claim_C2_counterexample :
    (process_reservation vDictNil).pyLookupD "nights" vNone = vStr "" ∧
    (process_reservation vDictNil).pyLookupD "nights" vNone ≠ vInt 0 ∧
    (process_reservation vDictNil).pyLookupD "nights" vNone ≠ vFloat 0 := by
  decide

/-- Claim C2 as amended: `process_reservation` is total — it returns
the built record when the raw value and its `guest_user`/`guest_details`
entries are dicts, and the `\x7b\x7d` placeholder otherwise, never
propagating an exception.  On the success path, an absent string-like
source field (status shown here) defaults to `""`, the four guest
counts default to integer 0 and `earnings` defaults to float `0.0` as
claimed — but an absent `nights` defaults to `""`, not 0. -/
theorem claim_C2_normalize_total (raw : PyVal) :
    (process_reservation raw = normValue raw ∨ process_reservation raw = vDictNil) ∧
    (normOkB raw = true → raw.pyLookup "user_facing_status_localized" = none →
      (process_reservation raw).pyLookupD "status" vNone = vStr "") ∧
    (normOkB raw = true → raw.pyLookup "nights" = none →
      (process_reservation raw).pyLookupD "nights" vNone = vStr "") ∧
    (normOkB raw = true → raw.pyLookup "earnings" = none →
      (process_reservation raw).pyLookupD "earnings" vNone = vFloat 0) ∧
    (normOkB raw = true → raw.pyLookup "guest_details" = none →
      ((process_reservation raw).pyLookupD "guest" vNone).pyLookupD "details" vNone
        = PyVal.ofDict [("adults", vInt 0), ("children", vInt 0),
                        ("infants", vInt 0), ("pets", vInt 0)]) := by
  have hproc : normOkB raw = true → process_reservation raw = normValue raw := by
    intro hn
    rw [process_reservation, process_reservationE_ok hn]
  refine ⟨?_, ?_, ?_, ?_, ?_⟩
  · by_cases hn : normOkB raw = true
    · exact Or.inl (hproc hn)
    · exact Or.inr (process_reservation_placeholder (by simpa using hn))
  · intro hn hl
    rw [hproc hn]
    simp [normValue, PyVal.ofDict, PyVal.pyLookupD, PyVal.pyLookup, hl]
  · intro hn hl
    rw [hproc hn]
    simp [normValue, PyVal.ofDict, PyVal.pyLookupD, PyVal.pyLookup, hl]
  · intro hn hl
    rw [hproc hn]
    simp [normValue, PyVal.ofDict, PyVal.pyLookupD, PyVal.pyLookup, hl]
    decide
  · intro hn hl
    rw [hproc hn]
    simp [normValue, PyVal.ofDict, PyVal.pyLookupD, PyVal.pyLookup, hl]

/-- Witness for the amended C2 at the empty raw record: the placeholder
branch is not taken, the status/earnings/guest-count defaults hold and
`nights` comes out as the empty string. -/
theorem claim_C2_witness :
    (process_reservation vDictNil = normValue vDictNil ∨
      process_reservation vDictNil = vDictNil) ∧
    (process_reservation vDictNil).pyLookupD "status" vNone = vStr "" ∧
    (process_reservation vDictNil).pyLookupD "nights" vNone = vStr "" ∧
    (process_reservation vDictNil).pyLookupD "earnings" vNone = vFloat 0 ∧
    ((process_reservation vDictNil).pyLookupD "guest" vNone).pyLookupD "details" vNone
      = PyVal.ofDict [("adults", vInt 0), ("children", vInt 0),
                      ("infants", vInt 0), ("pets", vInt 0)] := by
  have hc := claim_C2_normalize_total vDictNil
  exact ⟨hc.1, hc.2.1 (by decide) (by decide), hc.2.2.1 (by decide) (by decide),
    hc.2.2.2.1 (by decide) (by decide), hc.2.2.2.2 (by decide) (by decide)⟩

/-! ### Claim C3 -/

/-- With no date bounds, no status filter and a valid date field, the
request reduces to the sort stage. -/
theorem pipeline_no_filters (rs : List PyVal) (hrs : rs ≠ []) (sb : Option String)
    (so : String) :
    get_reservations_as_json rs sb so none none "check_in" none = sortStage sb so rs := by
  rw [get_reservations_as_json, if_neg hrs,
    if_neg (show ¬ ¬ ("check_in" ∈ validDateFields) by decide)]
  rfl

/-- Counterexample to C3 as stated: sorting by a field absent from
every record silently succeeds — `res.get(sort_by, "")` defaults every
key to `""`, all keys tie, and the full payload is returned with the
batch unchanged, not a structured error. -/
theorem claim_C3_counterexample :
    payloadRecs (get_reservations_as_json [sampleRec "A" "ok" 10, sampleRec "B" "ok" 5]
        (some "zz") "asc" none none "check_in" none)
      = some [sampleRec "A" "ok" 10, sampleRec "B" "ok" 5] := by
  decide

/-- Claim C3 as amended: on a batch of dict records with a non-empty
sort field, a field whose values are genuinely not mutually orderable
does yield the structured sort-error message for the whole request
(lines 284-286); but a field absent from every record is NOT an error:
all keys default to `""` and the sort returns the batch unchanged. -/
theorem claim_C3_sort_field (rs : List PyVal) (f : String) (hf : f ≠ "")
    (hrs : rs ≠ []) (hd : ∀ r ∈ rs, r.isDictB = true) :
    (sortKeysOkB (rs.map (sortKey f)) = false →
      get_reservations_as_json rs (some f) "asc" none none "check_in" none
        = Except.ok (ApiResult.message (sortErrMsg f))) ∧
    ((∀ r ∈ rs, r.pyLookup f = none) →
      sortRecords f false rs = Except.ok rs) := by
  constructor
  · intro hbad
    have hmap : exMap (fun r => pyGet? r f (vStr "")) rs = Except.ok (rs.map (sortKey f)) := by
      apply exMap_ok
      intro r hr
      show pyGet? r f (vStr "") = Except.ok (sortKey f r)
      rw [pyGet?, if_pos (hd r hr)]
      rfl
    have hkeys : sortRecords f false rs = Except.error PyErr.typeError := by
      rw [sortRecords, hmap]
      simp only [bindE_ok]
      rw [if_neg (show ¬ sortKeysOkB (rs.map (sortKey f)) = true by simp [hbad])]
    have hsort : sortStage (some f) "asc" rs
        = match sortRecords f false rs with
          | Except.ok rs' => finishStage rs'
          | Except.error _ => Except.ok (ApiResult.message (sortErrMsg f)) := by
      show (if f ≠ "" then
          match sortRecords f false rs with
          | Except.ok rs' => finishStage rs'
          | Except.error _ => Except.ok (ApiResult.message (sortErrMsg f))
        else finishStage rs)
        = match sortRecords f false rs with
          | Except.ok rs' => finishStage rs'
          | Except.error _ => Except.ok (ApiResult.message (sortErrMsg f))
      rw [if_pos hf]
    rw [pipeline_no_filters rs hrs, hsort, hkeys]
  · intro habs
    have hmap : exMap (fun r => pyGet? r f (vStr "")) rs
        = Except.ok (rs.map (fun _ => vStr "")) := by
      apply exMap_ok
      intro r hr
      show pyGet? r f (vStr "") = Except.ok (vStr "")
      rw [pyGet?, if_pos (hd r hr)]
      show Except.ok ((r.pyLookup f).getD (vStr "")) = Except.ok (vStr "")
      rw [habs r hr]
      rfl
    have hok : sortKeysOkB (rs.map (fun _ => vStr "")) = true := by
      rw [sortKeysOkB, Bool.or_eq_true]
      right
      rw [List.all_eq_true]
      intro a ha
      obtain ⟨r, hr, rfl⟩ := List.mem_map.mp ha
      rw [List.all_eq_true]
      intro b hb
      obtain ⟨q, hq, rfl⟩ := List.mem_map.mp hb
      rfl
    have hst : stableSort (fun r1 r2 : PyVal =>
        let k1 := r1.pyLookupD f (vStr "")
        let k2 := r2.pyLookupD f (vStr "")
        if (false : Bool) then pyLeB k2 k1 else pyLeB k1 k2) rs = rs := by
      apply stableSort_of_all_le
      intro x hx y hy
      show pyLeB (x.pyLookupD f (vStr "")) (y.pyLookupD f (vStr "")) = true
      have hxl : x.pyLookupD f (vStr "") = vStr "" := by
        show (x.pyLookup f).getD (vStr "") = vStr ""
        rw [habs x hx]
        rfl
      have hyl : y.pyLookupD f (vStr "") = vStr "" := by
        show (y.pyLookup f).getD (vStr "") = vStr ""
        rw [habs y hy]
        rfl
      rw [hxl, hyl]
      rfl
    rw [sortRecords, hmap]
    simp only [bindE_ok]
    rw [if_pos hok]
    show Except.ok (stableSort (fun r1 r2 : PyVal =>
        let k1 := r1.pyLookupD f (vStr "")
        let k2 := r2.pyLookupD f (vStr "")
        if (false : Bool) then pyLeB k2 k1 else pyLeB k1 k2) rs) = Except.ok rs
    rw [hst]

def claimC3batch : List PyVal :=
  [PyVal.ofDict [("x", vInt 1)], PyVal.ofDict [("x", vStr "a")]]

/-- Witness for the amended C3: a batch whose `x` values are an int and
a string draws the structured sort-error message, while sorting the
same batch by the absent field `zz` silently returns it unchanged. -/
theorem claim_C3_witness :
    get_reservations_as_json claimC3batch (some "x") "asc" none none "check_in" none
      = Except.ok (ApiResult.message (sortErrMsg "x")) ∧
    sortRecords "zz" false claimC3batch = Except.ok claimC3batch := by
  refine ⟨(claim_C3_sort_field claimC3batch "x" (by decide) (by decide) (by decide)).1
      (by decide),
    (claim_C3_sort_field claimC3batch "zz" (by decide) (by decide) (by decide)).2
      (by decide)⟩

/-! ### Claim C6 -/

theorem dateRecTest_ok {f : String} {sd ed : Option Date} {r : PyVal}
    (h : dateRecOkB f r = true) :
    dateRecTest f sd ed r = Except.ok (inRangeB f sd ed r) := by
  simp only [dateRecOkB, Bool.and_eq_true, Bool.or_eq_true, decide_eq_true_eq] at h
  obtain ⟨hdict, hval⟩ := h
  rw [dateRecTest, pyGet?, if_pos hdict]
  simp only [bindE_ok]
  show (if (dateVal f r).truthyB = false then pure false
    else
      match dateVal f r with
      | vStr s =>
        match parseDate? s with
        | some d => pure (inBoundsB sd ed d)
        | none => Except.error PyErr.valueError
      | _ => Except.error PyErr.typeError)
    = Except.ok (inRangeB f sd ed r)
  by_cases ht : truthyB (dateVal f r) = false
  · rw [if_pos ht]
    have hin : inRangeB f sd ed r = false := by
      rw [inRangeB]
      cases hdv : dateVal f r with
      | vStr s =>
        rw [hdv] at ht
        have hs : s = "" := by
          by_contra hne
          simp [truthyB, hne] at ht
        subst hs
        simp
      | vNone => rfl
      | vBool b => rfl
      | vInt n => rfl
      | vFloat q => rfl
      | vDictNil => rfl
      | vDictCons k v t => rfl
    rw [hin]
    rfl
  · have htt : truthyB (dateVal f r) = true := by
      cases hb : truthyB (dateVal f r)
      · exact absurd hb ht
      · rfl
    rcases hval with hfalse | hparse
    · exact absurd hfalse ht
    rw [if_neg ht, inRangeB]
    show (match dateVal f r with
      | vStr s =>
        match parseDate? s with
        | some d => pure (inBoundsB sd ed d)
        | none => Except.error PyErr.valueError
      | _ => Except.error PyErr.typeError)
      = Except.ok (match dateVal f r with
        | vStr s =>
          (s ≠ "" : Bool) &&
          (match parseDate? s with
           | some d => inBoundsB sd ed d
           | none => false)
        | _ => false)
    cases hdv : dateVal f r with
    | vStr s =>
      rw [hdv] at htt hparse
      obtain ⟨d, hd⟩ := Option.isSome_iff_exists.mp hparse
      show (match parseDate? s with
        | some d => pure (inBoundsB sd ed d)
        | none => Except.error PyErr.valueError)
        = Except.ok ((s ≠ "" : Bool) &&
            (match parseDate? s with
             | some d => inBoundsB sd ed d
             | none => false))
      rw [hd]
      show Except.ok (inBoundsB sd ed d) = Except.ok ((s ≠ "" : Bool) && inBoundsB sd ed d)
      rw [show (s ≠ "" : Bool) = true from htt, Bool.true_and]
    | vNone =>
      rw [hdv] at hparse
      exact Bool.noConfusion hparse
    | vBool b =>
      rw [hdv] at hparse
      exact Bool.noConfusion hparse
    | vInt n =>
      rw [hdv] at hparse
      exact Bool.noConfusion hparse
    | vFloat q =>
      rw [hdv] at hparse
      exact Bool.noConfusion hparse
    | vDictNil =>
      rw [hdv] at hparse
      exact Bool.noConfusion hparse
    | vDictCons k v t =>
      rw [hdv] at hparse
      exact Bool.noConfusion hparse

/-- Counterexample to C6 as stated: with BOTH bounds omitted the date
filter is skipped entirely (`if start_date or end_date:` is false), so
a record lacking the selected date field is kept in the payload, not
excluded. -/
theorem claim_C6_counterexample :
    payloadRecs (get_reservations_as_json [sampleRecDrop "A" "ok" 10 "check_in"]
        none "asc" none none "check_in" none)
      = some [sampleRecDrop "A" "ok" 10 "check_in"] := by
  decide

/-- Claim C6 as amended: when the date filter actually runs (it does
whenever a truthy bound is present), on records that do not make the
predicate raise it keeps exactly the records whose selected field value
parses to a date within the inclusive `[start, end]` interval, each
bound dropped when omitted, and a record lacking the selected field
(value defaulting to the falsy `""`) is excluded by that filter. -/
theorem claim_C6_date_filter (f : String) (sdS edS : Option String) (sd ed : Option Date)
    (rs : List PyVal)
    (hsd : parseBound sdS = Except.ok sd) (hed : parseBound edS = Except.ok ed)
    (hok : ∀ r ∈ rs, dateRecOkB f r = true) :
    dateStageM f sdS edS rs = Except.ok (rs.filter (inRangeB f sd ed)) ∧
    (∀ r ∈ rs, r.pyLookup f = none → inRangeB f sd ed r = false) := by
  constructor
  · rw [dateStageM, hsd]
    simp only [bindE_ok]
    rw [hed]
    simp only [bindE_ok]
    apply exFilter_ok
    intro r hr
    exact dateRecTest_ok (hok r hr)
  · intro r hr hnone
    rw [inRangeB]
    have hdv : dateVal f r = vStr "" := by
      rw [dateVal]
      show (r.pyLookup f).getD (vStr "") = vStr ""
      rw [hnone]
      rfl
    rw [hdv]
    simp

/-- Witness for the amended C6: with a start bound given, a record with
`check_in = "2024-02-01"` is kept and a record lacking `check_in` is
excluded by the filter. -/
theorem claim_C6_witness :
    dateStageM "check_in" (some "2024-01-01") none
        [sampleRec "A" "ok" 10, sampleRecDrop "B" "ok" 5 "check_in"]
      = Except.ok [sampleRec "A" "ok" 10] ∧
    inRangeB "check_in" (some ⟨2024, 1, 1⟩) none (sampleRecDrop "B" "ok" 5 "check_in")
      = false := by
  have hc := claim_C6_date_filter "check_in" (some "2024-01-01") none (some ⟨2024, 1, 1⟩)
      none [sampleRec "A" "ok" 10, sampleRecDrop "B" "ok" 5 "check_in"]
      (by decide) (by decide) (by decide)
  constructor
  · rw [hc.1]
    decide
  · exact hc.2 _ (by decide) (by decide)
